import Mathlib

/-
Formal model of the `hvh` struct-of-arrays container (`soa.hpp`) and of the
hash-table overlay built on top of it (`htable.hpp`), together with theorems
about the behaviour documented for them.

Modelling conventions:
* A "row" is modelled as one value of an abstract type (for the hash table, a
  `Key × Value` pair); every column of a row is moved, copied and destroyed in
  lockstep by the C++ code, so row-level modelling is faithful for ordering
  and content statements.
* The backing allocation of a container is modelled as a total function
  `Nat → α` (the heap); `mysize` rows are live, `mycapacity` row slots are
  allocated.  Reads beyond the live range return whatever the function holds,
  mirroring the fact that the C++ code can read stale bytes of destroyed
  trivial rows.  Freshly allocated (uninitialized) memory is modelled as
  `default`.
* `std::hash` is modelled as an arbitrary function `H : K → Nat` passed to
  every operation that hashes.
* The allocator is modelled by a boolean oracle `allocOk` passed to every
  operation that may allocate: `false` means the single allocation the
  operation may attempt fails.
* The `while (1)` probe loops of `htable.hpp` need not terminate in C++; they
  are modelled with an explicit fuel (the callers use `hashcapacity`, one full
  stride-2 cycle, as fuel).  A result of `none` means the C++ loop ran longer
  than a full cycle without meeting its exit condition; since the stride-2
  cycle over an odd `hashcapacity` revisits the same slots afterwards, such a
  loop never exits in C++.
-/

set_option autoImplicit false

namespace hvh

/-- `UINT_MAX`, the `INDEXNUL` sentinel marking an EMPTY hash slot. -/
def INDEXNUL : Nat := 4294967295

/-- `UINT_MAX - 1`, the `INDEXDEL` sentinel marking a TOMBSTONE hash slot. -/
def INDEXDEL : Nat := 4294967294

/-- `SIZE_MAX`, the not-found sentinel returned by `find`. -/
def SIZE_MAX : Nat := 18446744073709551615

/-- `htable::max_size()`, i.e. `UINT_MAX - 2`. -/
def HTABLE_MAX_SIZE : Nat := 4294967293

/-- Pointwise update of a modelled memory: `upd f a b` is the memory `f`
after the store `f[a] = b`. -/
def upd {β : Type} (f : Nat → β) (a : Nat) (b : β) : Nat → β :=
  fun x => if x = a then b else f x

/-- The capacity-rounding of `reserve`/`shrink_to_fit`: round up to a
multiple of 16 (`if (newsize % 16 != 0) newsize += 16 - (newsize % 16);`). -/
def roundup16 (n : Nat) : Nat :=
  if n % 16 ≠ 0 then n + (16 - n % 16) else n

/-- The capacity `reserve(newsize)` actually grows to: `newsize` rounded up
to a multiple of 16, and at least 16. -/
def growTarget (n : Nat) : Nat :=
  if roundup16 n = 0 then 16 else roundup16 n

/-! ## Probe-sequence arithmetic

`hash_inc` is `htable::hash_inc`:  `h = ((h + 2) % hashcapacity)`.
`probe h0 j m` is the slot reached after `j` strides from the starting slot
`h0`. -/

/-- One probe step of stride 2 modulo the slot-array size `m`
(`htable::hash_inc`). -/
def hash_inc (m h : Nat) : Nat := (h + 2) % m

/-- The `j`-th slot of the probe sequence starting at `h0` in a slot array of
size `m`. -/
def probe (h0 j m : Nat) : Nat := (h0 + 2 * j) % m

/-! ## The struct-of-arrays container (`soa.hpp`)

One value of type `α` stands for one full row (all columns of one index).
`mydata` is the backing allocation, `mysize` the number of live rows and
`mycapacity` the number of allocated row slots. -/

structure soa (α : Type) where
  mydata : Nat → α
  mysize : Nat
  mycapacity : Nat

namespace soa

variable {α : Type} [Inhabited α]

/-- A default-constructed `soa`: size and capacity 0, no allocation. -/
def empty : soa α := ⟨fun _ => default, 0, 0⟩

/-- The live rows of the container, in index order. -/
def liveList (s : soa α) : List α := (List.range s.mysize).map s.mydata

/-- `_soa_base::divy_buffer` as seen from a fresh allocation of `newcap`
row slots: `memcpy` copies `min(mysize, mycapacity)` rows of each column
(at the call sites `mycapacity` has already been set to the new capacity);
the remaining slots are uninitialized memory, modelled as `default`. -/
def divy_buffer (olddata : Nat → α) (mysize newcap : Nat) : Nat → α :=
  fun i => if i < min mysize newcap then olddata i else default

/-- `soa::reserve(newsize)`.  The boolean oracle `allocOk` is the outcome of
the single `_soa_aligned_malloc` the operation may attempt.  Returns the
C++ return value together with the resulting state. -/
def reserve (s : soa α) (newsize : Nat) (allocOk : Bool) : Bool × soa α :=
  let n2 := growTarget newsize
  if n2 ≤ s.mycapacity then (true, s)
  else if allocOk then
    (true, { mydata := divy_buffer s.mydata s.mysize n2
             mysize := s.mysize
             mycapacity := n2 })
  else (false, s)

/-- `soa::shrink_to_fit()`. -/
def shrink_to_fit (s : soa α) (allocOk : Bool) : Bool × soa α :=
  let n1 := roundup16 s.mysize
  if n1 = s.mycapacity then (true, s)
  else if 0 < n1 then
    if allocOk then
      (true, { mydata := divy_buffer s.mydata s.mysize n1
               mysize := s.mysize
               mycapacity := n1 })
    else (false, s)
  else
    (true, { mydata := fun _ => default
             mysize := s.mysize
             mycapacity := 0 })

/-- `soa::clear()`: destructs all rows (bytes of trivial rows survive),
size becomes 0, capacity unchanged. -/
def clear (s : soa α) : soa α := { s with mysize := 0 }

/-- `soa::resize(newsize)` (default-constructing overload). -/
def resize (s : soa α) (newsize : Nat) (allocOk : Bool) : Bool × soa α :=
  if newsize > s.mysize then
    match (if newsize > s.mycapacity then reserve s newsize allocOk
           else (true, s)) with
    | (false, s1) => (false, s1)
    | (true, s1) =>
      (true, { s1 with
                 mydata := fun i =>
                   if s1.mysize ≤ i ∧ i < newsize then default else s1.mydata i
                 mysize := newsize })
  else if newsize < s.mysize then
    (true, { s with mysize := newsize })
  else (true, s)

/-- `soa::resize(newsize, initvals...)` (copy-constructing overload).  Note:
faithfully to the source, the growth branch calls `construct_range` but never
updates `mysize`. -/
def resize_fill (s : soa α) (newsize : Nat) (v : α) (allocOk : Bool) :
    Bool × soa α :=
  if newsize > s.mysize then
    match (if newsize > s.mycapacity then reserve s newsize allocOk
           else (true, s)) with
    | (false, s1) => (false, s1)
    | (true, s1) =>
      (true, { s1 with
                 mydata := fun i =>
                   if s1.mysize ≤ i ∧ i < newsize then v else s1.mydata i })
  else if newsize < s.mysize then
    (true, { s with mysize := newsize })
  else (true, s)

/-- `soa::push_back(args...)`. -/
def push_back (s : soa α) (v : α) (allocOk : Bool) : Bool × soa α :=
  match (if s.mysize = s.mycapacity then reserve s (s.mycapacity * 2) allocOk
         else (true, s)) with
  | (false, s1) => (false, s1)
  | (true, s1) =>
    (true, { s1 with mydata := upd s1.mydata s1.mysize v
                     mysize := s1.mysize + 1 })

/-- `soa::insert(where, args...)`: `memmove` shifts rows `[where, mysize)`
up by one, then the new row is constructed at `where`. -/
def insert (s : soa α) (loc : Nat) (v : α) (allocOk : Bool) : Bool × soa α :=
  match (if s.mysize = s.mycapacity then reserve s (s.mycapacity * 2) allocOk
         else (true, s)) with
  | (false, s1) => (false, s1)
  | (true, s1) =>
    if loc > s1.mysize then (false, s1)
    else
      (true, { s1 with
                 mydata := fun i =>
                   if i = loc then v
                   else if loc < i ∧ i ≤ s1.mysize then s1.mydata (i - 1)
                   else s1.mydata i
                 mysize := s1.mysize + 1 })

/-- `soa::pop_back()`. -/
def pop_back (s : soa α) : soa α :=
  if s.mysize = 0 then s else { s with mysize := s.mysize - 1 }

/-- `soa::erase_swap(where)`: swap row `where` with the last row, destruct
the (now) last row, decrement the size.  The bytes of the destructed slot
survive in the backing memory. -/
def erase_swap (s : soa α) (loc : Nat) : soa α :=
  if loc ≥ s.mysize then s
  else
    { s with
        mydata := upd (upd s.mydata loc (s.mydata (s.mysize - 1)))
                      (s.mysize - 1) (s.mydata loc)
        mysize := s.mysize - 1 }

/-- `soa::erase_shift(where)`: destruct row `where`, then `memmove` moves
`mysize - where` rows starting at `where + 1` down by one (faithfully to the
source this reads one row past the live range), decrement the size. -/
def erase_shift (s : soa α) (loc : Nat) : soa α :=
  if loc ≥ s.mysize then s
  else
    { s with
        mydata := fun i =>
          if loc ≤ i ∧ i < s.mysize then s.mydata (i + 1) else s.mydata i
        mysize := s.mysize - 1 }

/-- `soa::swap_entries(first, second)`. -/
def swap_entries (s : soa α) (first second : Nat) : soa α :=
  if first ≥ s.mysize ∨ second ≥ s.mysize then s
  else
    { s with
        mydata := upd (upd s.mydata first (s.mydata second))
                      second (s.mydata first) }

/-- `soa::serialize(num_bytes)`: shrink to fit (the return value of
`shrink_to_fit` is ignored), report `size_per_entry * mycapacity` bytes and
expose the backing buffer.  `spe` abstracts `size_per_entry()`. -/
def serialize (s : soa α) (spe : Nat) (allocOk : Bool) : Nat × soa α :=
  let s1 := (shrink_to_fit s allocOk).2
  (spe * s1.mycapacity, s1)

/-- `soa::deserialize(num_elements, num_bytes)`: `reserve(num_elements)`
(its return value is ignored), report the byte count, and set
`mysize = num_elements`. -/
def deserialize (s : soa α) (num_elements : Nat) (spe : Nat)
    (allocOk : Bool) : Nat × soa α :=
  let s1 := (reserve s num_elements allocOk).2
  (spe * s1.mycapacity, { s1 with mysize := num_elements })

/-- The caller-side step of the serialize/deserialize protocol: copy the
`num_bytes` bytes saved from `serialize` (the `mycapacity` allocated rows of
the source) into the buffer returned by `deserialize`. -/
def loadBuffer (s : soa α) (buf : Nat → α) : soa α :=
  { s with mydata := fun i => if i < s.mycapacity then buf i else s.mydata i }

end soa

/-! ## The hash table (`htable.hpp`)

`htable<KeyT, ItemTs...>` inherits from `soa<KeyT, ItemTs...>`; the model
inherits from `soa (K × V)` where the first pair component is the key column
(`at<0>`) and the second stands for the item columns.  `hashmap` is the
probe-slot array (`uint32_t*`), `hashcapacity` its length and `hashcursor`
the shared find cursor. -/

structure htable (K V : Type) extends soa (K × V) where
  hashmap : Nat → Nat
  hashcapacity : Nat
  hashcursor : Nat

/-- A bounded model of a `while (1) { ...; hash_inc(h); }` probe loop of
`htable.hpp`: `body` is the loop body up to its exit statements (`some` =
the loop exits with that value, `none` = the loop continues), `m` is
`hashcapacity`.  `none` overall means the loop did not exit within `fuel`
iterations; callers pass `hashcapacity` (one full stride-2 cycle, after
which the C++ loop revisits exactly the same slots forever). -/
def probeLoop {β : Type} (body : Nat → Option β) (m : Nat) :
    Nat → Nat → Option β
  | _, 0 => none
  | h, fuel + 1 =>
    match body h with
    | some b => some b
    | none => probeLoop body m (hash_inc m h) fuel

namespace htable

variable {K V : Type} [Inhabited K] [Inhabited V] [DecidableEq K]

/-- A default-constructed `htable`: no rows, no slot allocation
(`hashmap == nullptr` is modelled as the all-EMPTY map; it is never read
while `hashcapacity = 0` guards hold), cursor `SIZE_MAX`. -/
def empty : htable K V :=
  { tosoa := soa.empty, hashmap := fun _ => INDEXNUL, hashcapacity := 0
    hashcursor := SIZE_MAX }

/-- The placement loop of `htable::rehash` for one row index `i`: probe from
the row's hash for the first EMPTY or TOMBSTONE slot and store `i` there. -/
def rehashPlace (rows : Nat → K × V) (H : K → Nat) (m : Nat)
    (hm : Nat → Nat) (i : Nat) : Option (Nat → Nat) :=
  probeLoop (fun h =>
      let index := hm h
      if index = INDEXNUL ∨ index = INDEXDEL then some (upd hm h i) else none)
    m (H (rows i).1 % m) m

/-- The placements of `htable::rehash` for the rows `0, …, n-1` in order. -/
def rehashUpto (rows : Nat → K × V) (H : K → Nat) (m : Nat) :
    Nat → (Nat → Nat) → Option (Nat → Nat)
  | 0, hm => some hm
  | n + 1, hm =>
    (rehashUpto rows H m n hm).bind fun hm1 => rehashPlace rows H m hm1 n

/-- `htable::rehash()`: `memset` every slot to EMPTY, re-place every live
row, reset the cursor. -/
def rehash (H : K → Nat) (t : htable K V) : Option (htable K V) :=
  (rehashUpto t.mydata H t.hashcapacity t.mysize (fun _ => INDEXNUL)).map
    fun hm => { t with hashmap := hm, hashcursor := SIZE_MAX }

/-- `htable::reserve(newsize)`.  On growth the slot capacity becomes
`newsize + newsize + 4` decremented to the odd `2*newsize + 3`, the rows are
copied into the new co-allocation (`divy_buffer`) and `rehash` rebuilds the
slot array from scratch.  The source assigns `hashcapacity` before the
allocation is attempted, so a failed allocation returns false with
`hashcapacity` already overwritten while everything else is untouched. -/
def reserve (H : K → Nat) (t : htable K V) (newsize : Nat) (allocOk : Bool) :
    Option (Bool × htable K V) :=
  let n2 := growTarget newsize
  if n2 ≤ t.mycapacity then some (true, t)
  else if allocOk then
    let t1 : htable K V :=
      { mydata := soa.divy_buffer t.mydata t.mysize n2
        mysize := t.mysize
        mycapacity := n2
        hashmap := fun _ => INDEXNUL
        hashcapacity := 2 * n2 + 3
        hashcursor := t.hashcursor }
    (rehash H t1).map fun t2 => (true, t2)
  else some (false, { t with hashcapacity := 2 * n2 + 3 })

/-- `htable::shrink_to_fit()`.  As in `reserve`, the shrinking branch
assigns `hashcapacity` before the allocation is attempted, so a failed
allocation returns false with `hashcapacity` already overwritten. -/
def shrink_to_fit (H : K → Nat) (t : htable K V) (allocOk : Bool) :
    Option (Bool × htable K V) :=
  let n1 := roundup16 t.mysize
  if n1 = t.mycapacity then some (true, t)
  else if 0 < n1 then
    if allocOk then
      let t1 : htable K V :=
        { mydata := soa.divy_buffer t.mydata t.mysize n1
          mysize := t.mysize
          mycapacity := n1
          hashmap := fun _ => INDEXNUL
          hashcapacity := 2 * n1 + 3
          hashcursor := t.hashcursor }
      (rehash H t1).map fun t2 => (true, t2)
    else some (false, { t with hashcapacity := 2 * n1 + 3 })
  else
    (rehash H { t with mydata := fun _ => default
                       mycapacity := 0
                       hashmap := fun _ => INDEXNUL
                       hashcapacity := 0 }).map
      fun t2 => (true, t2)

/-- The probe loop of `htable::insert`/`emplace`: the first EMPTY or
TOMBSTONE slot on the key's probe sequence. -/
def insertLoop (hm : Nat → Nat) (m h fuel : Nat) : Option Nat :=
  probeLoop (fun cur =>
      let index := hm cur
      if index = INDEXNUL ∨ index = INDEXDEL then some cur else none)
    m h fuel

/-- `htable::insert(key, items...)` (and `emplace`, which differs only in
how the row is constructed). -/
def insert (H : K → Nat) (t : htable K V) (k : K) (v : V) (allocOk : Bool) :
    Option (Bool × htable K V) :=
  if t.mysize = HTABLE_MAX_SIZE then some (false, t)
  else
    (if t.mysize = t.mycapacity then reserve H t (t.mycapacity * 2) allocOk
     else some (true, t)).bind fun r =>
      match r with
      | (false, t1) => some (false, t1)
      | (true, t1) =>
        (insertLoop t1.hashmap t1.hashcapacity (H k % t1.hashcapacity)
            t1.hashcapacity).map fun slot =>
          (true, { t1 with
                     mydata := upd t1.mydata t1.mysize (k, v)
                     mysize := t1.mysize + 1
                     hashmap := upd t1.hashmap slot t1.mysize })

/-- The probe loop shared by all `find` overloads: EMPTY terminates with
`SIZE_MAX`, a TOMBSTONE is skipped, an occupied slot whose row key matches
is returned.  The result also carries the slot the loop stopped on (the
final cursor). -/
def findLoop (hm : Nat → Nat) (rows : Nat → K × V) (k : K)
    (m h fuel : Nat) : Option (Nat × Nat) :=
  probeLoop (fun cur =>
      let index := hm cur
      if index = INDEXNUL then some (SIZE_MAX, cur)
      else if index ≠ INDEXDEL ∧ (rows index).1 = k then some (index, cur)
      else none)
    m h fuel

/-- `htable::find(key, restart)` (the cursor-mutating overload). -/
def find (H : K → Nat) (t : htable K V) (k : K) (restart : Bool) :
    Option (Nat × htable K V) :=
  if t.mysize = 0 then some (SIZE_MAX, t)
  else if restart then
    (findLoop t.hashmap t.mydata k t.hashcapacity (H k % t.hashcapacity)
        t.hashcapacity).map fun rc => (rc.1, { t with hashcursor := rc.2 })
  else if t.hashcursor ≥ t.hashcapacity then some (SIZE_MAX, t)
  else
    (findLoop t.hashmap t.mydata k t.hashcapacity
        (hash_inc t.hashcapacity t.hashcursor)
        t.hashcapacity).map fun rc => (rc.1, { t with hashcursor := rc.2 })

/-- `htable::find(key) const` (no cursor). -/
def find_const (H : K → Nat) (t : htable K V) (k : K) : Option Nat :=
  if t.mysize = 0 then some SIZE_MAX
  else
    (findLoop t.hashmap t.mydata k t.hashcapacity (H k % t.hashcapacity)
        t.hashcapacity).map Prod.fst

/-- `htable::find(key, restart, hashc) const` (external cursor).  Returns
the result together with the final value of the caller-owned cursor. -/
def find_cursor (H : K → Nat) (t : htable K V) (k : K) (restart : Bool)
    (hashc : Nat) : Option (Nat × Nat) :=
  if t.mysize = 0 then some (SIZE_MAX, hashc)
  else if restart then
    findLoop t.hashmap t.mydata k t.hashcapacity (H k % t.hashcapacity)
      t.hashcapacity
  else if hashc ≥ t.hashcapacity then some (SIZE_MAX, hashc)
  else
    findLoop t.hashmap t.mydata k t.hashcapacity
      (hash_inc t.hashcapacity hashc) t.hashcapacity

/-- The body of the repair loop of `htable::erase_found()`: looking for the
slot that still references the old last row (`t2.mysize` is the size after
the decrement), to redirect it to `index`; an EMPTY slot ends the walk with
no write (the `ERROR! We can't repair the link!` branch). -/
def repairBody {K V : Type} (t2 : htable K V) (index : Nat) :
    Nat → Option (Nat → Nat) :=
  fun h =>
    let newindex := t2.hashmap h
    if newindex = t2.mysize then some (upd t2.hashmap h index)
    else if newindex = INDEXNUL then some t2.hashmap
    else none

/-- `htable::erase_found()` with an explicit fuel for its repair loop
(`erase_found` itself uses `hashcapacity`).  The erased slot is tombstoned,
`erase_swap` relocates the last row into the freed row index, and the repair
loop searches the relocated key's probe sequence for the slot holding the
old last index (`mysize` after the decrement) to redirect it. -/
def erase_foundAux (H : K → Nat) (t : htable K V) (fuel : Nat) :
    Option (Nat × htable K V) :=
  if t.hashcursor ≥ t.hashcapacity then some (0, t)
  else
    let index := t.hashmap t.hashcursor
    if index = INDEXNUL ∨ index = INDEXDEL then some (0, t)
    else
      let t1 : htable K V := { t with tosoa := t.tosoa.erase_swap index }
      let t2 : htable K V :=
        { t1 with hashmap := upd t1.hashmap t.hashcursor INDEXDEL }
      (probeLoop (repairBody t2 index)
        t2.hashcapacity (H (t2.mydata index).1 % t2.hashcapacity) fuel).map
        fun hm => (1, { t2 with hashmap := hm })

/-- `htable::erase_found()`. -/
def erase_found (H : K → Nat) (t : htable K V) :
    Option (Nat × htable K V) :=
  erase_foundAux H t t.hashcapacity

/-- `htable::erase(key)`. -/
def erase (H : K → Nat) (t : htable K V) (k : K) :
    Option (Nat × htable K V) :=
  (find H t k true).bind fun rt => erase_found H rt.2

/-- The loop of `htable::erase_all(key)`, fueled. -/
def erase_allAux (H : K → Nat) (k : K) :
    Nat → htable K V → Bool → Nat → Option (Nat × htable K V)
  | 0, _, _, _ => none
  | fuel + 1, t, restart, acc =>
    (find H t k restart).bind fun rt =>
      if rt.1 = SIZE_MAX then some (acc, rt.2)
      else (erase_found H rt.2).bind fun nt =>
        erase_allAux H k fuel nt.2 false (acc + nt.1)

/-- `htable::erase_all(key)`. -/
def erase_all (H : K → Nat) (t : htable K V) (k : K) :
    Option (Nat × htable K V) :=
  erase_allAux H k (t.mysize + 1) t true 0

/-- `htable::erase_found_sorted()`: `erase_shift` the found row, tombstone
the slot, then a full `rehash`. -/
def erase_found_sorted (H : K → Nat) (t : htable K V) :
    Option (Nat × htable K V) :=
  if t.hashcursor ≥ t.hashcapacity then some (0, t)
  else
    let index := t.hashmap t.hashcursor
    if index = INDEXNUL ∨ index = INDEXDEL then some (0, t)
    else
      let t1 : htable K V := { t with tosoa := t.tosoa.erase_shift index }
      let t2 : htable K V :=
        { t1 with hashmap := upd t1.hashmap t.hashcursor INDEXDEL }
      (rehash H t2).map fun t3 => (1, t3)

/-- `htable::erase_sorted(key)`. -/
def erase_sorted (H : K → Nat) (t : htable K V) (k : K) :
    Option (Nat × htable K V) :=
  (find H t k true).bind fun rt => erase_found_sorted H rt.2

/-- One repair walk of `htable::swap_entries`: probe from `h` for the slot
holding row index `seek`; an EMPTY slot ends the walk with the position
still at its `SIZE_MAX` initialization (the `ERROR! We can't repair the
link!` branch of the source). -/
def swapFindPos (hm : Nat → Nat) (m seek h fuel : Nat) : Option Nat :=
  probeLoop (fun cur =>
      let index := hm cur
      if index = seek then some cur
      else if index = INDEXNUL then some SIZE_MAX
      else none)
    m h fuel

/-- `htable::swap_entries(first, second)`: swap the rows (via the guarded
`soa::swap_entries`), then look up the repair position for each row and
store the swapped indices there unconditionally.  When a walk failed its
position is `SIZE_MAX`, so the C++ stores through `hashmap[SIZE_MAX]`,
far outside the slot array; in the model that store lands on cell
`SIZE_MAX` of the memory function. -/
def swap_entries (H : K → Nat) (t : htable K V) (first second : Nat) :
    Option (htable K V) :=
  let t1 : htable K V := { t with tosoa := t.tosoa.swap_entries first second }
  (swapFindPos t1.hashmap t1.hashcapacity first
      (H (t1.mydata first).1 % t1.hashcapacity) t1.hashcapacity).bind
    fun p1 =>
      (swapFindPos t1.hashmap t1.hashcapacity second
          (H (t1.mydata second).1 % t1.hashcapacity) t1.hashcapacity).map
        fun p2 => { t1 with hashmap := upd (upd t1.hashmap p1 second) p2 first }

/-- `htable::clear()`. -/
def clear (t : htable K V) : htable K V :=
  { t with tosoa := t.tosoa.clear
           hashmap := fun _ => INDEXNUL
           hashcursor := SIZE_MAX }

/-- `htable::serialize(num_bytes)`: shrink to fit, then report
`size_per_entry * mycapacity + sizeof(uint32_t) * hashcapacity` bytes.
`spe` abstracts `size_per_entry()`. -/
def serialize (H : K → Nat) (t : htable K V) (spe : Nat) (allocOk : Bool) :
    Option (Nat × htable K V) :=
  (shrink_to_fit H t allocOk).map fun rt =>
    (spe * rt.2.mycapacity + 4 * rt.2.hashcapacity, rt.2)

/-- `htable::deserialize(num_elements, num_bytes)`: `reserve` (result
ignored), report the byte count, set `mysize = num_elements`. -/
def deserialize (H : K → Nat) (t : htable K V) (num_elements spe : Nat)
    (allocOk : Bool) : Option (Nat × htable K V) :=
  (reserve H t num_elements allocOk).map fun rt =>
    (spe * rt.2.mycapacity + 4 * rt.2.hashcapacity,
     { rt.2 with mysize := num_elements })

/-- `htable::sort<K>()`: the quicksort reorders rows purely through
(unrepaired) `soa::swap_entries` calls — `swaps` abstracts the schedule of
swaps the quicksort performs — and then the table is rehashed. -/
def sortSwaps (H : K → Nat) : List (Nat × Nat) → htable K V →
    Option (htable K V)
  | [], t => rehash H t
  | ab :: rest, t =>
    sortSwaps H rest { t with tosoa := t.tosoa.swap_entries ab.1 ab.2 }

end htable

/-! ## The slot-reachability invariant and concrete instances -/

/-- The spec's hash-index invariant: every occupied slot's row index refers
to a live row whose key reaches that slot by walking the stride-2 probe
sequence from `hash(key) % hashcapacity` without meeting an EMPTY slot
first (an EMPTY slot would terminate any lookup walk before the slot). -/
def slotReachInv {K V : Type} (H : K → Nat) (t : htable K V) : Prop :=
  ∀ s, s < t.hashcapacity →
    t.hashmap s ≠ INDEXNUL → t.hashmap s ≠ INDEXDEL →
      t.hashmap s < t.mysize ∧
      ∃ j, j < t.hashcapacity ∧
        probe (H (t.mydata (t.hashmap s)).1 % t.hashcapacity) j
            t.hashcapacity = s ∧
        ∀ j', j' < j →
          t.hashmap (probe (H (t.mydata (t.hashmap s)).1 % t.hashcapacity) j'
              t.hashcapacity) ≠ INDEXNUL

instance slotReachInv.instDecidable {K V : Type} (H : K → Nat)
    (t : htable K V) : Decidable (slotReachInv H t) := by
  unfold slotReachInv
  infer_instance

/-- Occupied slots reference rows injectively: two distinct slots never
hold the same row index. -/
def slotInj {K V : Type} (t : htable K V) : Prop :=
  ∀ s, s < t.hashcapacity → ∀ s', s' < t.hashcapacity →
    t.hashmap s ≠ INDEXNUL → t.hashmap s ≠ INDEXDEL →
    t.hashmap s = t.hashmap s' → s = s'

instance slotInj.instDecidable {K V : Type} (t : htable K V) :
    Decidable (slotInj t) := by
  unfold slotInj
  infer_instance

/-- Every live row is referenced by some slot. -/
def slotTotal {K V : Type} (t : htable K V) : Prop :=
  ∀ i, i < t.mysize → ∃ s, s < t.hashcapacity ∧ t.hashmap s = i

instance slotTotal.instDecidable {K V : Type} (t : htable K V) :
    Decidable (slotTotal t) := by
  unfold slotTotal
  infer_instance

/-- A two-row table with keys 0 (row 0, slot 0) and 10 (row 1, slot 10),
`hashcapacity` 35, hashed by the identity.  The two keys probe along
different start slots. -/
def swapDemoT : htable Nat Nat :=
  { mydata := fun i => if i = 0 then (0, 100)
                       else if i = 1 then (10, 200) else (0, 0)
    mysize := 2
    mycapacity := 16
    hashmap := fun s => if s = 0 then 0 else if s = 10 then 1 else INDEXNUL
    hashcapacity := 35
    hashcursor := SIZE_MAX }

/-- `swapDemoT` after the row swap of `swap_entries(0, 1)` but before the
slot repair (the intermediate state the repair walks inspect). -/
def swapDemoT1 : htable Nat Nat :=
  { swapDemoT with tosoa := swapDemoT.tosoa.swap_entries 0 1 }

/-- The outcome of `swap_entries(0, 1)` on `swapDemoT`. -/
def swapDemoT2 : htable Nat Nat :=
  (htable.swap_entries (fun k => k) swapDemoT 0 1).getD htable.empty

/-- A two-row table with keys 3 (row 0, slot 3) and 5 (row 1, slot 5),
`hashcapacity` 7, hashed by the identity, with the cursor resting on slot 3
as if `find(3)` had just succeeded. -/
def eraseDemoT : htable Nat Nat :=
  { mydata := fun i => if i = 0 then (3, 30)
                       else if i = 1 then (5, 50) else (0, 0)
    mysize := 2
    mycapacity := 16
    hashmap := fun s => if s = 3 then 0 else if s = 5 then 1 else INDEXNUL
    hashcapacity := 7
    hashcursor := 3 }

/-- A one-row table whose slot array holds no EMPTY slot (every unoccupied
slot is a TOMBSTONE): row 0 holds key 5, referenced by slot 5, and the cursor
rests on slot 5 as if `find(5)` had just succeeded. -/
def eraseDemoSat : htable Nat Nat :=
  { mydata := fun i => if i = 0 then (5, 50) else (0, 0)
    mysize := 1
    mycapacity := 16
    hashmap := fun s => if s = 5 then 0 else INDEXDEL
    hashcapacity := 7
    hashcursor := 5 }


/-! ## Operation traces (for the reachable-state invariant)

One constructor per public mutating operation; allocating operations carry
their allocator outcome. -/

/-- The quantization invariant of the spec, for the column store. -/
def sizeCapInv {α : Type} (s : soa α) : Prop :=
  s.mycapacity % 16 = 0 ∧ s.mysize ≤ s.mycapacity

instance sizeCapInv.instDecidable {α : Type} (s : soa α) :
    Decidable (sizeCapInv s) := by
  unfold sizeCapInv
  infer_instance

/-- The quantization invariant of the spec, for the hash table. -/
def sizeCapInvH {K V : Type} (t : htable K V) : Prop :=
  t.mycapacity % 16 = 0 ∧ t.mysize ≤ t.mycapacity

instance sizeCapInvH.instDecidable {K V : Type} (t : htable K V) :
    Decidable (sizeCapInvH t) := by
  unfold sizeCapInvH
  infer_instance

/-- A public mutating `soa` operation together with its arguments
(`emplace_back`/`emplace` coincide with `push_back`/`insert` in the row
model). -/
inductive SoaOp (α : Type) where
  | reserveOp (n : Nat) (ok : Bool)
  | shrinkOp (ok : Bool)
  | resizeOp (n : Nat) (ok : Bool)
  | resizeFillOp (n : Nat) (v : α) (ok : Bool)
  | pushBackOp (v : α) (ok : Bool)
  | insertOp (loc : Nat) (v : α) (ok : Bool)
  | popBackOp
  | eraseSwapOp (loc : Nat)
  | eraseShiftOp (loc : Nat)
  | swapEntriesOp (a b : Nat)
  | clearOp
  | serializeOp (spe : Nat) (ok : Bool)
  | deserializeOp (n spe : Nat) (ok : Bool)

/-- The allocator outcome an operation was run with (`true` when the
operation cannot allocate). -/
def SoaOp.okAlloc {α : Type} : SoaOp α → Bool
  | .reserveOp _ ok => ok
  | .shrinkOp ok => ok
  | .resizeOp _ ok => ok
  | .resizeFillOp _ _ ok => ok
  | .pushBackOp _ ok => ok
  | .insertOp _ _ ok => ok
  | .serializeOp _ ok => ok
  | .deserializeOp _ _ ok => ok
  | _ => true

/-- The state after one `soa` operation. -/
def applySoaOp {α : Type} [Inhabited α] (op : SoaOp α) (s : soa α) : soa α :=
  match op with
  | .reserveOp n ok => (soa.reserve s n ok).2
  | .shrinkOp ok => (soa.shrink_to_fit s ok).2
  | .resizeOp n ok => (soa.resize s n ok).2
  | .resizeFillOp n v ok => (soa.resize_fill s n v ok).2
  | .pushBackOp v ok => (soa.push_back s v ok).2
  | .insertOp loc v ok => (soa.insert s loc v ok).2
  | .popBackOp => soa.pop_back s
  | .eraseSwapOp loc => soa.erase_swap s loc
  | .eraseShiftOp loc => soa.erase_shift s loc
  | .swapEntriesOp a b => soa.swap_entries s a b
  | .clearOp => soa.clear s
  | .serializeOp spe ok => (soa.serialize s spe ok).2
  | .deserializeOp n spe ok => (soa.deserialize s n spe ok).2

/-- The state reached from a default-constructed `soa` by a sequence of
public operations. -/
def runSoa {α : Type} [Inhabited α] (ops : List (SoaOp α)) : soa α :=
  ops.foldl (fun s op => applySoaOp op s) soa.empty

/-- A public mutating `htable` operation together with its arguments
(`emplace` coincides with `insert` in the row model; `sort` performs a
schedule of unrepaired row swaps, here abstracted by the swap list its
quicksort produces, followed by `rehash`). -/
inductive HOp (K V : Type) where
  | reserveOp (n : Nat) (ok : Bool)
  | shrinkOp (ok : Bool)
  | insertOp (k : K) (v : V) (ok : Bool)
  | findOp (k : K) (restart : Bool)
  | eraseFoundOp
  | eraseOp (k : K)
  | eraseAllOp (k : K)
  | eraseFoundSortedOp
  | eraseSortedOp (k : K)
  | rehashOp
  | clearOp
  | swapEntriesOp (a b : Nat)
  | serializeOp (spe : Nat) (ok : Bool)
  | deserializeOp (n spe : Nat) (ok : Bool)
  | sortOp (swaps : List (Nat × Nat))

/-- The allocator outcome an `htable` operation was run with. -/
def HOp.okAlloc {K V : Type} : HOp K V → Bool
  | .reserveOp _ ok => ok
  | .shrinkOp ok => ok
  | .insertOp _ _ ok => ok
  | .serializeOp _ ok => ok
  | .deserializeOp _ _ ok => ok
  | _ => true

/-- The state after one `htable` operation (`none` when the operation's
probe loop diverges in C++). -/
def applyHOp {K V : Type} [Inhabited K] [Inhabited V] [DecidableEq K]
    (H : K → Nat) (op : HOp K V) (t : htable K V) : Option (htable K V) :=
  match op with
  | .reserveOp n ok => (htable.reserve H t n ok).map Prod.snd
  | .shrinkOp ok => (htable.shrink_to_fit H t ok).map Prod.snd
  | .insertOp k v ok => (htable.insert H t k v ok).map Prod.snd
  | .findOp k restart => (htable.find H t k restart).map Prod.snd
  | .eraseFoundOp => (htable.erase_found H t).map Prod.snd
  | .eraseOp k => (htable.erase H t k).map Prod.snd
  | .eraseAllOp k => (htable.erase_all H t k).map Prod.snd
  | .eraseFoundSortedOp => (htable.erase_found_sorted H t).map Prod.snd
  | .eraseSortedOp k => (htable.erase_sorted H t k).map Prod.snd
  | .rehashOp => htable.rehash H t
  | .clearOp => some (htable.clear t)
  | .swapEntriesOp a b => htable.swap_entries H t a b
  | .serializeOp spe ok => (htable.serialize H t spe ok).map Prod.snd
  | .deserializeOp n spe ok => (htable.deserialize H t n spe ok).map Prod.snd
  | .sortOp swaps => htable.sortSwaps H swaps t

/-- The state reached from a default-constructed `htable` by a sequence of
public operations. -/
def runH {K V : Type} [Inhabited K] [Inhabited V] [DecidableEq K]
    (H : K → Nat) (ops : List (HOp K V)) : Option (htable K V) :=
  ops.foldl (fun o op => o.bind (applyHOp H op)) (some htable.empty)

/-- One `find(key, restart=true)` call followed by `n` `find(key,
restart=false)` calls, collecting the returned row indices and the final
table (`none` if any walk runs out of fuel, i.e. the C++ loop diverges). -/
def findSeqAux {K V : Type} [Inhabited K] [Inhabited V] [DecidableEq K]
    (H : K → Nat) (k : K) : Nat → htable K V → Option (List Nat × htable K V)
  | 0, t => some ([], t)
  | n + 1, t =>
    (htable.find H t k false).bind fun rc =>
      (findSeqAux H k n rc.2).map fun p => (rc.1 :: p.1, p.2)

/-- The full iteration sequence of the spec: a `restart=true` call then `n`
`restart=false` calls. -/
def findSeq {K V : Type} [Inhabited K] [Inhabited V] [DecidableEq K]
    (H : K → Nat) (t : htable K V) (k : K) (n : Nat) :
    Option (List Nat × htable K V) :=
  (htable.find H t k true).bind fun rc =>
    (findSeqAux H k n rc.2).map fun p => (rc.1 :: p.1, p.2)

/-- A table whose row store is larger than needed (one row, capacity 32),
so `shrink_to_fit` takes its reallocating branch. -/
def shrinkDemoT : htable Nat Nat :=
  { mydata := fun _ => (0, 0)
    mysize := 1
    mycapacity := 32
    hashmap := fun _ => INDEXNUL
    hashcapacity := 67
    hashcursor := SIZE_MAX }

/-- The insertion history of the spec's banana example. -/
def bananaOps : List (HOp String Nat) :=
  [HOp.insertOp "banana" 12 true, HOp.insertOp "banana" 42 true,
   HOp.insertOp "banana" 9001 true]

/-- The table of the banana example: `("banana", 12)`, `("banana", 42)`,
`("banana", 9001)` inserted into a default-constructed table, hashed by
string length. -/
def bananaT : htable String Nat :=
  (runH (fun s => s.length) bananaOps).getD htable.empty

/-! ## Basic lemmas about the shared helpers -/

theorem upd_same {β : Type} (f : Nat → β) (a : Nat) (b : β) :
    upd f a b a = b := by simp [upd]

theorem upd_ne {β : Type} (f : Nat → β) (a : Nat) (b : β) {x : Nat}
    (h : x ≠ a) : upd f a b x = f x := by simp [upd, h]

theorem roundup16_mod (n : Nat) : roundup16 n % 16 = 0 := by
  unfold roundup16
  split <;> omega

theorem le_roundup16 (n : Nat) : n ≤ roundup16 n := by
  unfold roundup16
  split <;> omega

theorem roundup16_eq_zero_iff (n : Nat) : roundup16 n = 0 ↔ n = 0 := by
  unfold roundup16
  split <;> omega

theorem roundup16_le_of_le {n c : Nat} (hc : c % 16 = 0) (h : n ≤ c) :
    roundup16 n ≤ c := by
  unfold roundup16
  split <;> omega

theorem growTarget_mod (n : Nat) : growTarget n % 16 = 0 := by
  unfold growTarget
  split
  · rfl
  · exact roundup16_mod n

theorem le_growTarget (n : Nat) : n ≤ growTarget n := by
  unfold growTarget
  have h1 := le_roundup16 n
  split
  · omega
  · exact h1

theorem growTarget_pos (n : Nat) : 0 < growTarget n := by
  unfold growTarget
  split
  · omega
  · omega

theorem probe_zero (h0 m : Nat) : probe h0 0 m = h0 % m := by simp [probe]

theorem probe_succ (h0 j m : Nat) :
    probe h0 (j + 1) m = hash_inc m (probe h0 j m) := by
  unfold probe hash_inc
  rw [Nat.mod_add_mod]
  have h : h0 + 2 * (j + 1) = h0 + 2 * j + 2 := by ring
  rw [h]

theorem probe_lt (h0 j : Nat) {m : Nat} (hm : 0 < m) : probe h0 j m < m :=
  Nat.mod_lt _ hm

/-- Shifting the start of the probe sequence by one stride. -/
theorem probe_shift (h0 j m : Nat) :
    probe h0 (j + 1) m = probe (hash_inc m h0) j m := by
  unfold probe hash_inc
  rw [Nat.mod_add_mod]
  have h : (h0 + 2) + 2 * j = h0 + 2 * (j + 1) := by ring
  rw [h]

theorem coprime_two_of_odd {m : Nat} (hm : Odd m) : Nat.gcd 2 m = 1 := by
  rw [Nat.gcd_rec]
  have h2 : m % 2 = 1 := Nat.odd_iff.mp hm
  rw [h2]
  rfl

/-- Over an odd slot-array size the stride-2 probe sequence is injective on
one full cycle: no slot is visited twice in the first `m` steps. -/
theorem probe_inj {h0 m : Nat} (hm : Odd m) {i j : Nat}
    (hi : i < m) (hj : j < m) (h : probe h0 i m = probe h0 j m) : i = j := by
  have hmeq : h0 + 2 * i ≡ h0 + 2 * j [MOD m] := by
    unfold probe at h
    exact h
  have h2 : 2 * i ≡ 2 * j [MOD m] := Nat.ModEq.add_left_cancel' h0 hmeq
  have hco : Nat.gcd m 2 = 1 := by
    rw [Nat.gcd_comm]
    exact coprime_two_of_odd hm
  have hij : i ≡ j [MOD m] := Nat.ModEq.cancel_left_of_coprime hco h2
  have := Nat.ModEq.eq_of_lt_of_lt hij hi hj
  exact this

/-- Over an odd slot-array size the stride-2 probe sequence reaches every
slot within one full cycle. -/
theorem probe_surj {m : Nat} (hm : Odd m) (h0 : Nat) {s : Nat} (hs : s < m) :
    ∃ j < m, probe h0 j m = s := by
  have hm0 : 0 < m := by
    rcases hm with ⟨k, hk⟩
    omega
  let f : Fin m → Fin m := fun j => ⟨probe h0 j m, probe_lt h0 j hm0⟩
  have hinj : Function.Injective f := by
    intro a b hab
    have : probe h0 a m = probe h0 b m := congrArg Fin.val hab
    exact Fin.ext (probe_inj hm a.isLt b.isLt this)
  have hsurj : Function.Surjective f := Finite.surjective_of_injective hinj
  obtain ⟨j, hj⟩ := hsurj ⟨s, hs⟩
  exact ⟨j, j.isLt, congrArg Fin.val hj⟩

/-- After exactly `m` strides the probe sequence is back at its start. -/
theorem probe_cycle (h0 m : Nat) : probe h0 m m = h0 % m := by
  unfold probe
  rw [Nat.mul_comm, Nat.add_mul_mod_self_left]

/-! ## Claim C4: `resize` -/

/-- C4: the claim states that a successful `resize(n, fill...)` always leaves
`size() == n` and that the default overload behaves the same.  On the code
this fails: the growth branch of the fill overload never assigns `mysize`,
so growing an empty container to one row with a fill value reports success
while `size()` stays 0, whereas the default overload does set `size() == 1`.
This theorem evaluates both overloads at that input. -/
theorem resize_fill_growth_drops_size :
    (soa.resize_fill (soa.empty : soa Nat) 1 7 true).1 = true ∧
    (soa.resize_fill (soa.empty : soa Nat) 1 7 true).2.mysize = 0 ∧
    (soa.resize (soa.empty : soa Nat) 1 true).1 = true ∧
    (soa.resize (soa.empty : soa Nat) 1 true).2.mysize = 1 :=
  ⟨rfl, rfl, rfl, rfl⟩

/-! ## Claim C10: `find` on an empty table -/

/-- C10: on a table with `size() == 0` every `find` overload returns
`SIZE_MAX` immediately: the cursor-mutating overload returns the table
unchanged (same cursor, same slots, same rows), the const overload just
reports `SIZE_MAX`, and the external-cursor overload leaves the caller's
cursor untouched.  In the source the `mysize == 0` test precedes the
`hash(key) % hashcapacity` reduction, which is therefore never evaluated —
in particular no modulo by `hashcapacity == 0` happens on a freshly
constructed table. -/
theorem find_on_empty_table {K V : Type} [Inhabited K] [Inhabited V]
    [DecidableEq K] (H : K → Nat) (t : htable K V) (k : K) (restart : Bool)
    (hashc : Nat) (h : t.mysize = 0) :
    htable.find H t k restart = some (SIZE_MAX, t) ∧
    htable.find_const H t k = some SIZE_MAX ∧
    htable.find_cursor H t k restart hashc = some (SIZE_MAX, hashc) := by
  unfold htable.find htable.find_const htable.find_cursor
  simp [h]

/-- Witness for `find_on_empty_table`: the default-constructed table, where
additionally `hashcapacity = 0`. -/
theorem find_on_empty_table_witness :
    ((htable.empty : htable Nat Nat).mysize = 0 ∧
     (htable.empty : htable Nat Nat).hashcapacity = 0) ∧
    (htable.find (fun k => k) (htable.empty : htable Nat Nat) 5 true =
       some (SIZE_MAX, htable.empty) ∧
     htable.find_const (fun k => k) (htable.empty : htable Nat Nat) 5 =
       some SIZE_MAX ∧
     htable.find_cursor (fun k => k) (htable.empty : htable Nat Nat) 5 true
       SIZE_MAX = some (SIZE_MAX, SIZE_MAX)) :=
  ⟨⟨rfl, rfl⟩, find_on_empty_table (fun k => k) htable.empty 5 true SIZE_MAX rfl⟩

/-! ## Claim C9: `erase_shift` vs `erase_swap` -/

/-- C9: for a nonempty `soa` and an in-range index, `erase_shift` removes
that row and shifts every row of `[at+1, n)` down by one (preserving the
relative order of the remaining rows and touching no earlier row), while
`erase_swap` instead moves the previously-last row into position `at` and
leaves every other surviving row in place; consequently `erase_swap` does
not preserve relative order, as the evaluated three-row example shows
(`erase_swap 0` yields `[30, 20]` where order preservation would require
`[20, 30]`). -/
theorem erase_shift_orders_erase_swap_moves_last {α : Type} [Inhabited α]
    (s : soa α) (a : Nat) (ha : a < s.mysize) :
    ((soa.erase_shift s a).mysize = s.mysize - 1 ∧
     (∀ i, i < a → (soa.erase_shift s a).mydata i = s.mydata i) ∧
     (∀ i, a < i → i < s.mysize →
        (soa.erase_shift s a).mydata (i - 1) = s.mydata i)) ∧
    ((soa.erase_swap s a).mysize = s.mysize - 1 ∧
     (soa.erase_swap s a).mydata a = s.mydata (s.mysize - 1) ∧
     (∀ i, i < s.mysize - 1 → i ≠ a →
        (soa.erase_swap s a).mydata i = s.mydata i)) ∧
    ((soa.erase_swap (⟨fun i => List.getD [10, 20, 30] i 0, 3, 16⟩ : soa Nat)
        0).liveList = [30, 20] ∧
     (soa.erase_shift (⟨fun i => List.getD [10, 20, 30] i 0, 3, 16⟩ : soa Nat)
        0).liveList = [20, 30] ∧
     ([30, 20] : List Nat) ≠ [20, 30]) := by
  have hguard : ¬ a ≥ s.mysize := by omega
  refine ⟨⟨?_, ?_, ?_⟩, ⟨?_, ?_, ?_⟩, by decide, by decide, by decide⟩
  · unfold soa.erase_shift
    rw [if_neg hguard]
  · intro i hi
    unfold soa.erase_shift
    rw [if_neg hguard]
    dsimp only
    rw [if_neg (show ¬ (a ≤ i ∧ i < s.mysize) by omega)]
  · intro i hai hin
    unfold soa.erase_shift
    rw [if_neg hguard]
    dsimp only
    rw [if_pos (show a ≤ i - 1 ∧ i - 1 < s.mysize by omega)]
    congr 1
    omega
  · unfold soa.erase_swap
    rw [if_neg hguard]
  · unfold soa.erase_swap
    rw [if_neg hguard]
    dsimp only
    by_cases hlast : a = s.mysize - 1
    · rw [hlast, upd_same]
    · rw [upd_ne _ _ _ hlast, upd_same]
  · intro i hi hia
    unfold soa.erase_swap
    rw [if_neg hguard]
    dsimp only
    rw [upd_ne _ _ _ (show i ≠ s.mysize - 1 by omega), upd_ne _ _ _ hia]

/-- Witness for `erase_shift_orders_erase_swap_moves_last` at the three-row
container, erasing index 1. -/
theorem erase_shift_swap_witness :
    (1 < (⟨fun i => List.getD [10, 20, 30] i 0, 3, 16⟩ : soa Nat).mysize) ∧
    ((soa.erase_shift (⟨fun i => List.getD [10, 20, 30] i 0, 3, 16⟩ : soa Nat)
        1).mysize = 2 ∧
     (soa.erase_swap (⟨fun i => List.getD [10, 20, 30] i 0, 3, 16⟩ : soa Nat)
        1).mydata 1 = 30) := by
  have h := erase_shift_orders_erase_swap_moves_last
    (⟨fun i => List.getD [10, 20, 30] i 0, 3, 16⟩ : soa Nat) 1 (by decide)
  exact ⟨by decide, h.1.1, h.2.1.2.1⟩

/-! ## Claim C7: `reserve` sizing and the stride-2 cycle -/

/-- `rehash` only rebuilds the slot array and resets the cursor; all other
fields are untouched. -/
theorem rehash_fields {K V : Type} [Inhabited K] [Inhabited V]
    [DecidableEq K] (H : K → Nat) {t t' : htable K V}
    (h : htable.rehash H t = some t') :
    t'.mycapacity = t.mycapacity ∧ t'.hashcapacity = t.hashcapacity ∧
    t'.mysize = t.mysize ∧ t'.mydata = t.mydata := by
  unfold htable.rehash at h
  cases hup : htable.rehashUpto t.mydata H t.hashcapacity t.mysize
      (fun _ => INDEXNUL) with
  | none => rw [hup] at h; simp at h
  | some hm =>
    rw [hup] at h
    simp only [Option.map_some'] at h
    rw [← Option.some.inj h]
    exact ⟨rfl, rfl, rfl, rfl⟩

/-- C7: a successful, growing `htable::reserve` sets the row capacity to the
rounded request (a positive multiple of 16) and the slot capacity to
`2*capacity + 3`, which is odd and strictly greater than twice the row
capacity; consequently, from any start slot `h`, `hash_inc` iteration (the
`probe` sequence) visits all `hashcapacity` slots injectively in one cycle,
reaches every slot, and first returns to `h` after exactly `hashcapacity`
steps. -/
theorem reserve_grow_hashcapacity {K V : Type} [Inhabited K] [Inhabited V]
    [DecidableEq K] (H : K → Nat) (t t' : htable K V) (n : Nat)
    (hgrow : t.mycapacity < growTarget n)
    (hres : htable.reserve H t n true = some (true, t')) :
    t'.mycapacity = growTarget n ∧ 0 < t'.mycapacity ∧
    t'.hashcapacity = 2 * t'.mycapacity + 3 ∧ Odd t'.hashcapacity ∧
    2 * t'.mycapacity < t'.hashcapacity ∧
    (∀ h, h < t'.hashcapacity →
      (∀ i j, i < t'.hashcapacity → j < t'.hashcapacity →
         probe h i t'.hashcapacity = probe h j t'.hashcapacity → i = j) ∧
      (∀ s, s < t'.hashcapacity →
         ∃ j < t'.hashcapacity, probe h j t'.hashcapacity = s) ∧
      probe h t'.hashcapacity t'.hashcapacity = h) := by
  unfold htable.reserve at hres
  rw [if_neg (by omega : ¬ growTarget n ≤ t.mycapacity)] at hres
  simp only [if_pos] at hres
  cases hre : htable.rehash H
      ({ mydata := soa.divy_buffer t.mydata t.mysize (growTarget n)
         mysize := t.mysize
         mycapacity := growTarget n
         hashmap := fun _ => INDEXNUL
         hashcapacity := 2 * growTarget n + 3
         hashcursor := t.hashcursor } : htable K V) with
  | none => rw [hre] at hres; simp at hres
  | some t2 =>
    rw [hre] at hres
    simp only [Option.map_some', Option.some_inj] at hres
    have ht2 : t2 = t' := congrArg Prod.snd hres
    obtain ⟨hcap, hhcap, -, -⟩ := rehash_fields H hre
    rw [ht2] at hcap hhcap
    have hc : t'.mycapacity = growTarget n := hcap
    have hh : t'.hashcapacity = 2 * growTarget n + 3 := hhcap
    have hodd : Odd t'.hashcapacity := by
      rw [hh]
      exact ⟨growTarget n + 1, by ring⟩
    refine ⟨hc, ?_, by rw [hh, hc], hodd, by rw [hh, hc]; omega, ?_⟩
    · rw [hc]; exact growTarget_pos n
    · intro h hhlt
      refine ⟨fun i j hi hj hij => probe_inj hodd hi hj hij,
              fun s hs => probe_surj hodd h hs, ?_⟩
      rw [probe_cycle]
      exact Nat.mod_eq_of_lt hhlt

/-- Witness for `reserve_grow_hashcapacity`: growing the default table to
one row yields capacity 16 and hashcapacity 35. -/
theorem reserve_grow_hashcapacity_witness :
    ((htable.empty : htable Nat Nat).mycapacity < growTarget 1) ∧
    ∃ t', htable.reserve (fun k => k) (htable.empty : htable Nat Nat) 1 true =
        some (true, t') ∧
      t'.mycapacity = growTarget 1 ∧ 0 < t'.mycapacity ∧
      t'.hashcapacity = 2 * t'.mycapacity + 3 ∧ Odd t'.hashcapacity ∧
      2 * t'.mycapacity < t'.hashcapacity ∧
      (∀ h, h < t'.hashcapacity →
        (∀ i j, i < t'.hashcapacity → j < t'.hashcapacity →
           probe h i t'.hashcapacity = probe h j t'.hashcapacity → i = j) ∧
        (∀ s, s < t'.hashcapacity →
           ∃ j < t'.hashcapacity, probe h j t'.hashcapacity = s) ∧
        probe h t'.hashcapacity t'.hashcapacity = h) := by
  refine ⟨by decide, _, rfl, ?_⟩
  exact reserve_grow_hashcapacity (fun k => k) htable.empty _ 1 (by decide) rfl

/-! ## Claim C6: allocation-failure atomicity -/

/-- With a failing allocator, `soa::reserve` never changes the state. -/
theorem soa_reserve_allocFail {α : Type} [Inhabited α] (s : soa α) (n : Nat) :
    (soa.reserve s n false).2 = s := by
  unfold soa.reserve
  simp only [Bool.false_eq_true, if_false]
  split
  · rfl
  · rfl

/-- C6: the claim asserts that every allocating operation that reports
failure leaves the container exactly as it was before the call.  The
column-store operations satisfy this (the new block is allocated and checked
before any state is modified), but `htable::reserve` and
`htable::shrink_to_fit` overwrite `hashcapacity` with the new slot-array
length *before* attempting the allocation: on a failed allocation they
return false with `hashcapacity` already holding the new value while
`hashmap` still describes the old slot array, so the failed call does alter
existing state.  Below: `soa::reserve` under a failing allocator is atomic,
but a failed growing `htable::reserve` on the default-constructed table
raises `hashcapacity` from 0 to 227 (`2 * growTarget 100 + 3`), and a failed
shrinking `htable::shrink_to_fit` rewrites `hashcapacity` from 67 to 35 —
in both cases the returned table differs from the input. -/
theorem htable_alloc_failure_mutates_hashcapacity :
    soa.reserve (soa.empty : soa Nat) 100 false =
      (false, (soa.empty : soa Nat)) ∧
    htable.reserve (fun k : Nat => k) (htable.empty : htable Nat Nat) 100
        false =
      some (false,
        ({ htable.empty with hashcapacity := 227 } : htable Nat Nat)) ∧
    (htable.empty : htable Nat Nat).hashcapacity = 0 ∧
    ¬ ({ htable.empty with hashcapacity := 227 } : htable Nat Nat) =
      htable.empty ∧
    htable.shrink_to_fit (fun k : Nat => k) shrinkDemoT false =
      some (false, { shrinkDemoT with hashcapacity := 35 }) ∧
    shrinkDemoT.hashcapacity = 67 ∧
    ¬ ({ shrinkDemoT with hashcapacity := 35 } : htable Nat Nat) =
      shrinkDemoT :=
  ⟨rfl, rfl, rfl,
   (by
     intro hc
     exact absurd (congrArg htable.hashcapacity hc) (by decide)),
   rfl, rfl,
   (by
     intro hc
     exact absurd (congrArg htable.hashcapacity hc) (by decide))⟩

/-! ## Claim C8: serialize / deserialize round trip -/

/-- `shrink_to_fit` with a working allocator: the capacity becomes the
size rounded up to a multiple of 16, and the live rows survive. -/
theorem shrink_to_fit_true_spec {α : Type} [Inhabited α] (s : soa α) :
    (soa.shrink_to_fit s true).2.mycapacity = roundup16 s.mysize ∧
    (soa.shrink_to_fit s true).2.mysize = s.mysize ∧
    ∀ i, i < s.mysize → (soa.shrink_to_fit s true).2.mydata i = s.mydata i := by
  simp only [soa.shrink_to_fit]
  by_cases h1 : roundup16 s.mysize = s.mycapacity
  · rw [if_pos h1]
    exact ⟨h1.symm, rfl, fun i _ => rfl⟩
  · rw [if_neg h1]
    by_cases h2 : 0 < roundup16 s.mysize
    · rw [if_pos h2, if_pos trivial]
      refine ⟨rfl, rfl, fun i hi => ?_⟩
      show (if i < min s.mysize (roundup16 s.mysize) then s.mydata i
            else default) = s.mydata i
      rw [if_pos (show i < min s.mysize (roundup16 s.mysize) by
        have h3 := le_roundup16 s.mysize
        omega)]
    · rw [if_neg h2]
      have h4 : roundup16 s.mysize = 0 := by omega
      have hz0 : s.mysize = 0 := by
        have h3 := le_roundup16 s.mysize
        omega
      exact ⟨h4.symm, rfl, fun i hi => absurd hi (by omega)⟩

/-- A growing `soa::reserve` with a working allocator. -/
theorem soa_reserve_grow_true {α : Type} [Inhabited α] (s : soa α) (n : Nat)
    (h : s.mycapacity < growTarget n) :
    soa.reserve s n true =
      (true, { mydata := soa.divy_buffer s.mydata s.mysize (growTarget n)
               mysize := s.mysize
               mycapacity := growTarget n }) := by
  simp only [soa.reserve]
  rw [if_neg (by omega : ¬ growTarget n ≤ s.mycapacity), if_pos trivial]

/-- C8 (amended): for every container with at least one row, `serialize`
followed by `deserialize` of the element count into a fresh container of the
same column types, then copying the serialized buffer into the returned
buffer, reproduces the row count and every row value in order, and both
calls report the same `num_bytes` (`spe` abstracts `size_per_entry()`).
For the empty container the byte counts differ (see
`serialize_deserialize_empty_bytes_mismatch`): `serialize` reports 0 while
`deserialize(0)` reserves the 16-row minimum. -/
theorem serialize_deserialize_roundtrip {α : Type} [Inhabited α] (s : soa α)
    (spe : Nat) (hsz : 0 < s.mysize) :
    (soa.serialize s spe true).1 =
      (soa.deserialize (soa.empty : soa α) s.mysize spe true).1 ∧
    (soa.loadBuffer (soa.deserialize (soa.empty : soa α) s.mysize spe true).2
        (soa.serialize s spe true).2.mydata).mysize = s.mysize ∧
    (soa.loadBuffer (soa.deserialize (soa.empty : soa α) s.mysize spe true).2
        (soa.serialize s spe true).2.mydata).liveList = s.liveList := by
  obtain ⟨hcap, hsize, hdata⟩ := shrink_to_fit_true_spec s
  have hr0 : roundup16 s.mysize ≠ 0 := by
    rw [ne_eq, roundup16_eq_zero_iff]
    omega
  have hgt : growTarget s.mysize = roundup16 s.mysize := by
    unfold growTarget
    rw [if_neg hr0]
  have hgrow : (soa.empty : soa α).mycapacity < growTarget s.mysize := by
    have := growTarget_pos s.mysize
    simp [soa.empty]
    omega
  have hres := soa_reserve_grow_true (soa.empty : soa α) s.mysize hgrow
  have hser1 : (soa.serialize s spe true).1 =
      spe * roundup16 s.mysize := by
    simp only [soa.serialize]
    rw [hcap]
  have hser2 : (soa.serialize s spe true).2 = (soa.shrink_to_fit s true).2 :=
    rfl
  have hdes : soa.deserialize (soa.empty : soa α) s.mysize spe true =
      (spe * roundup16 s.mysize,
       { mydata := soa.divy_buffer (soa.empty : soa α).mydata 0
                     (growTarget s.mysize)
         mysize := s.mysize
         mycapacity := growTarget s.mysize }) := by
    unfold soa.deserialize
    rw [hres, hgt]
    rfl
  refine ⟨?_, ?_, ?_⟩
  · rw [hser1, hdes]
  · rw [hdes]
    rfl
  · rw [hdes]
    unfold soa.loadBuffer soa.liveList
    dsimp only
    apply List.map_congr_left
    intro i hi
    rw [List.mem_range] at hi
    have hilt : i < growTarget s.mysize := by
      have h1 := le_roundup16 s.mysize
      omega
    rw [if_pos hilt, hser2, hdata i hi]

/-- C8 counterexample: on the empty container the byte counts of
`serialize` and a matching fresh-container `deserialize(0)` disagree
(0 versus `16 * size_per_entry` bytes, here with `size_per_entry = 4`),
refuting the claim's universal "for every container state". -/
theorem serialize_deserialize_empty_bytes_mismatch :
    (soa.serialize (soa.empty : soa Nat) 4 true).1 = 0 ∧
    (soa.deserialize (soa.empty : soa Nat) 0 4 true).1 = 64 ∧
    (soa.serialize (soa.empty : soa Nat) 4 true).1 ≠
      (soa.deserialize (soa.empty : soa Nat) 0 4 true).1 :=
  ⟨rfl, rfl, by decide⟩

/-- Witness for `serialize_deserialize_roundtrip` on a one-row container. -/
theorem serialize_deserialize_roundtrip_witness :
    (0 < (⟨fun _ => 42, 1, 16⟩ : soa Nat).mysize) ∧
    ((soa.serialize (⟨fun _ => 42, 1, 16⟩ : soa Nat) 4 true).1 =
       (soa.deserialize (soa.empty : soa Nat) 1 4 true).1 ∧
     (soa.loadBuffer (soa.deserialize (soa.empty : soa Nat) 1 4 true).2
         (soa.serialize (⟨fun _ => 42, 1, 16⟩ : soa Nat) 4 true).2.mydata).mysize
       = 1 ∧
     (soa.loadBuffer (soa.deserialize (soa.empty : soa Nat) 1 4 true).2
         (soa.serialize (⟨fun _ => 42, 1, 16⟩ : soa Nat) 4 true).2.mydata).liveList
       = (⟨fun _ => 42, 1, 16⟩ : soa Nat).liveList) :=
  ⟨by decide, serialize_deserialize_roundtrip (⟨fun _ => 42, 1, 16⟩ : soa Nat)
      4 (by decide)⟩

/-! ## Claim C3: `swap_entries` slot repair -/

/-- C3: the claim states that `htable::swap_entries(a, b)` repairs the two
slots referencing rows `a` and `b` and never writes outside the slot array.
On the code this fails whenever the two keys' probe walks differ: after
swapping the rows, the first repair walk probes from the hash of the key now
at row `first` (the OTHER row's key) while seeking the pre-swap index
`first`, so it terminates at an EMPTY slot with its position left at the
`SIZE_MAX` initialization, and the unconditional store
`hashmap[first_hashpos] = second` then writes `hashmap[SIZE_MAX]`, far
outside the slot array.  This theorem evaluates `swap_entries(0, 1)` on
`swapDemoT` (which satisfies the slot-reachability invariant and has both
indices in range): both repair walks return `SIZE_MAX`, and the resulting
table violates the invariant (slot 0 still stores row 0, whose key is now
10 and probes elsewhere). -/
theorem swap_entries_fails_to_repair :
    slotReachInv (fun k => k) swapDemoT ∧
    0 < swapDemoT.mysize ∧ 1 < swapDemoT.mysize ∧
    htable.swapFindPos swapDemoT1.hashmap swapDemoT1.hashcapacity 0
        ((fun k => k) (swapDemoT1.mydata 0).1 % swapDemoT1.hashcapacity)
        swapDemoT1.hashcapacity = some SIZE_MAX ∧
    htable.swapFindPos swapDemoT1.hashmap swapDemoT1.hashcapacity 1
        ((fun k => k) (swapDemoT1.mydata 1).1 % swapDemoT1.hashcapacity)
        swapDemoT1.hashcapacity = some SIZE_MAX ∧
    ¬ SIZE_MAX < swapDemoT.hashcapacity ∧
    htable.swap_entries (fun k => k) swapDemoT 0 1 = some swapDemoT2 ∧
    swapDemoT2.hashmap 0 = 0 ∧ (swapDemoT2.mydata 0).1 = 10 ∧
    ¬ slotReachInv (fun k => k) swapDemoT2 := by
  refine ⟨by decide, by decide, by decide, by decide, by decide, by decide,
    rfl, by decide, by decide, by decide⟩

/-! ## Claim C5: the quantization invariant on reachable states -/

theorem soa_reserve_mysize {α : Type} [Inhabited α] (s : soa α) (n : Nat)
    (ok : Bool) : (soa.reserve s n ok).2.mysize = s.mysize := by
  simp only [soa.reserve]
  by_cases h1 : growTarget n ≤ s.mycapacity
  · rw [if_pos h1]
  · rw [if_neg h1]
    cases ok
    · rfl
    · rfl

theorem soa_reserve_cases {α : Type} [Inhabited α] (s : soa α) (n : Nat)
    (ok : Bool) :
    (soa.reserve s n ok).2 = s ∨
    ((soa.reserve s n ok).2.mycapacity = growTarget n ∧
     s.mycapacity < growTarget n) := by
  simp only [soa.reserve]
  by_cases h1 : growTarget n ≤ s.mycapacity
  · rw [if_pos h1]
    exact Or.inl rfl
  · rw [if_neg h1]
    cases ok
    · exact Or.inl rfl
    · exact Or.inr ⟨rfl, by omega⟩

theorem soa_reserve_inv {α : Type} [Inhabited α] (s : soa α) (n : Nat)
    (ok : Bool) (h : sizeCapInv s) : sizeCapInv (soa.reserve s n ok).2 := by
  rcases soa_reserve_cases s n ok with he | ⟨hc, hlt⟩
  · rw [he]
    exact h
  · constructor
    · rw [hc]
      exact growTarget_mod n
    · rw [hc, soa_reserve_mysize]
      have h2 := h.2
      omega

theorem soa_reserve_true_cap {α : Type} [Inhabited α] (s : soa α) (n : Nat)
    (ok : Bool) (h : (soa.reserve s n ok).1 = true) :
    growTarget n ≤ (soa.reserve s n ok).2.mycapacity := by
  revert h
  simp only [soa.reserve]
  by_cases h1 : growTarget n ≤ s.mycapacity
  · rw [if_pos h1]
    intro _
    exact h1
  · rw [if_neg h1]
    cases ok
    · intro h
      exact absurd h (by simp)
    · intro _
      show growTarget n ≤ growTarget n
      exact Nat.le_refl _

theorem soa_reserve_false_eq {α : Type} [Inhabited α] (s : soa α) (n : Nat)
    (ok : Bool) (h : (soa.reserve s n ok).1 = false) :
    (soa.reserve s n ok).2 = s := by
  revert h
  simp only [soa.reserve]
  by_cases h1 : growTarget n ≤ s.mycapacity
  · rw [if_pos h1]
    intro h
    exact absurd h (by simp)
  · rw [if_neg h1]
    cases ok
    · intro _
      rfl
    · intro h
      exact absurd h (by simp)

theorem soa_shrink_inv {α : Type} [Inhabited α] (s : soa α) (ok : Bool)
    (h : sizeCapInv s) : sizeCapInv (soa.shrink_to_fit s ok).2 := by
  simp only [soa.shrink_to_fit]
  by_cases h1 : roundup16 s.mysize = s.mycapacity
  · rw [if_pos h1]
    exact h
  · rw [if_neg h1]
    by_cases h2 : 0 < roundup16 s.mysize
    · rw [if_pos h2]
      cases ok
      · exact h
      · exact ⟨roundup16_mod s.mysize, le_roundup16 s.mysize⟩
    · rw [if_neg h2]
      refine ⟨rfl, ?_⟩
      show s.mysize ≤ 0
      have h3 := le_roundup16 s.mysize
      omega

theorem soa_resize_inv {α : Type} [Inhabited α] (s : soa α) (n : Nat)
    (ok : Bool) (h : sizeCapInv s) : sizeCapInv (soa.resize s n ok).2 := by
  unfold soa.resize
  split
  · rename_i hgrow
    split
    · rename_i s1 heq
      revert heq
      split
      · intro heq
        have h2 := soa_reserve_false_eq s n ok (by rw [heq])
        rw [heq] at h2
        rw [h2]
        exact h
      · intro heq
        injection heq with hb hs
        exact Bool.noConfusion hb
    · rename_i s1 heq
      revert heq
      split
      · intro heq
        have hinv := soa_reserve_inv s n ok h
        have hcap := soa_reserve_true_cap s n ok (by rw [heq])
        rw [heq] at hinv hcap
        have hc1 : s1.mycapacity % 16 = 0 := hinv.1
        have hc2 : growTarget n ≤ s1.mycapacity := hcap
        have h3 := le_growTarget n
        refine ⟨hc1, ?_⟩
        show n ≤ s1.mycapacity
        omega
      · rename_i hle
        intro heq
        injection heq with hb hs
        refine ⟨?_, ?_⟩
        · show s1.mycapacity % 16 = 0
          rw [← hs]
          exact h.1
        · show n ≤ s1.mycapacity
          rw [← hs]
          omega
  · split
    · rename_i hlt
      refine ⟨h.1, ?_⟩
      show n ≤ s.mycapacity
      have h2 := h.2
      omega
    · exact h

theorem soa_resize_fill_inv {α : Type} [Inhabited α] (s : soa α) (n : Nat)
    (v : α) (ok : Bool) (h : sizeCapInv s) :
    sizeCapInv (soa.resize_fill s n v ok).2 := by
  unfold soa.resize_fill
  split
  · split
    · rename_i s1 heq
      revert heq
      split
      · intro heq
        have h2 := soa_reserve_false_eq s n ok (by rw [heq])
        rw [heq] at h2
        rw [h2]
        exact h
      · intro heq
        injection heq with hb hs
        exact Bool.noConfusion hb
    · rename_i s1 heq
      revert heq
      split
      · intro heq
        have hinv := soa_reserve_inv s n ok h
        rw [heq] at hinv
        have hc1 : s1.mycapacity % 16 = 0 := hinv.1
        have hc2 : s1.mysize ≤ s1.mycapacity := hinv.2
        exact ⟨hc1, hc2⟩
      · intro heq
        injection heq with hb hs
        refine ⟨?_, ?_⟩
        · show s1.mycapacity % 16 = 0
          rw [← hs]
          exact h.1
        · show s1.mysize ≤ s1.mycapacity
          rw [← hs]
          exact h.2
  · split
    · refine ⟨h.1, ?_⟩
      show n ≤ s.mycapacity
      have h2 := h.2
      rename_i hgt hlt
      omega
    · exact h

theorem soa_push_back_inv {α : Type} [Inhabited α] (s : soa α) (v : α)
    (ok : Bool) (h : sizeCapInv s) : sizeCapInv (soa.push_back s v ok).2 := by
  unfold soa.push_back
  split
  · rename_i s1 heq
    revert heq
    split
    · intro heq
      have h2 := soa_reserve_false_eq s (s.mycapacity * 2) ok (by rw [heq])
      rw [heq] at h2
      rw [h2]
      exact h
    · intro heq
      injection heq with hb hs
      exact Bool.noConfusion hb
  · rename_i s1 heq
    revert heq
    split
    · rename_i hfull
      intro heq
      have hinv := soa_reserve_inv s (s.mycapacity * 2) ok h
      have hcap := soa_reserve_true_cap s (s.mycapacity * 2) ok (by rw [heq])
      have hms := soa_reserve_mysize s (s.mycapacity * 2) ok
      rw [heq] at hinv hcap hms
      have hc1 : s1.mycapacity % 16 = 0 := hinv.1
      have hc2 : growTarget (s.mycapacity * 2) ≤ s1.mycapacity := hcap
      have hms1 : s1.mysize = s.mysize := hms
      refine ⟨hc1, ?_⟩
      show s1.mysize + 1 ≤ s1.mycapacity
      have h3 := le_growTarget (s.mycapacity * 2)
      have h4 := growTarget_pos (s.mycapacity * 2)
      omega
    · rename_i hfull
      intro heq
      injection heq with hb hs
      refine ⟨?_, ?_⟩
      · show s1.mycapacity % 16 = 0
        rw [← hs]
        exact h.1
      · show s1.mysize + 1 ≤ s1.mycapacity
        rw [← hs]
        have h5 := h.2
        omega

theorem soa_insert_inv {α : Type} [Inhabited α] (s : soa α) (loc : Nat)
    (v : α) (ok : Bool) (h : sizeCapInv s) :
    sizeCapInv (soa.insert s loc v ok).2 := by
  unfold soa.insert
  split
  · rename_i s1 heq
    revert heq
    split
    · intro heq
      have h2 := soa_reserve_false_eq s (s.mycapacity * 2) ok (by rw [heq])
      rw [heq] at h2
      rw [h2]
      exact h
    · intro heq
      injection heq with hb hs
      exact Bool.noConfusion hb
  · rename_i s1 heq
    have hinv1 : sizeCapInv s1 := by
      revert heq
      split
      · intro heq
        have hinv := soa_reserve_inv s (s.mycapacity * 2) ok h
        rw [heq] at hinv
        exact ⟨hinv.1, hinv.2⟩
      · intro heq
        injection heq with hb hs
        rw [← hs]
        exact h
    have hfree : s1.mysize < s1.mycapacity := by
      revert heq
      split
      · rename_i hfull
        intro heq
        have hcap := soa_reserve_true_cap s (s.mycapacity * 2) ok (by rw [heq])
        have hms := soa_reserve_mysize s (s.mycapacity * 2) ok
        rw [heq] at hcap hms
        have hc2 : growTarget (s.mycapacity * 2) ≤ s1.mycapacity := hcap
        have hms1 : s1.mysize = s.mysize := hms
        have h3 := le_growTarget (s.mycapacity * 2)
        have h4 := growTarget_pos (s.mycapacity * 2)
        omega
      · rename_i hfull
        intro heq
        injection heq with hb hs
        rw [← hs]
        have h5 := h.2
        omega
    split
    · exact hinv1
    · exact ⟨hinv1.1, by
        show s1.mysize + 1 ≤ s1.mycapacity
        omega⟩

theorem soa_reserve_ok_true {α : Type} [Inhabited α] (s : soa α) (n : Nat) :
    (soa.reserve s n true).1 = true := by
  simp only [soa.reserve]
  by_cases h1 : growTarget n ≤ s.mycapacity
  · rw [if_pos h1]
  · rw [if_neg h1]
    rfl

theorem soa_op_inv {α : Type} [Inhabited α] (op : SoaOp α) (s : soa α)
    (hok : SoaOp.okAlloc op = true) (h : sizeCapInv s) :
    sizeCapInv (applySoaOp op s) := by
  cases op with
  | reserveOp n ok => exact soa_reserve_inv s n ok h
  | shrinkOp ok => exact soa_shrink_inv s ok h
  | resizeOp n ok => exact soa_resize_inv s n ok h
  | resizeFillOp n v ok => exact soa_resize_fill_inv s n v ok h
  | pushBackOp v ok => exact soa_push_back_inv s v ok h
  | insertOp loc v ok => exact soa_insert_inv s loc v ok h
  | popBackOp =>
    show sizeCapInv (soa.pop_back s)
    unfold soa.pop_back
    split
    · exact h
    · refine ⟨h.1, ?_⟩
      show s.mysize - 1 ≤ s.mycapacity
      have h2 := h.2
      omega
  | eraseSwapOp loc =>
    show sizeCapInv (soa.erase_swap s loc)
    unfold soa.erase_swap
    split
    · exact h
    · refine ⟨h.1, ?_⟩
      show s.mysize - 1 ≤ s.mycapacity
      have h2 := h.2
      omega
  | eraseShiftOp loc =>
    show sizeCapInv (soa.erase_shift s loc)
    unfold soa.erase_shift
    split
    · exact h
    · refine ⟨h.1, ?_⟩
      show s.mysize - 1 ≤ s.mycapacity
      have h2 := h.2
      omega
  | swapEntriesOp a b =>
    show sizeCapInv (soa.swap_entries s a b)
    unfold soa.swap_entries
    split
    · exact h
    · exact ⟨h.1, h.2⟩
  | clearOp =>
    show sizeCapInv (soa.clear s)
    exact ⟨h.1, by
      show (0 : Nat) ≤ s.mycapacity
      omega⟩
  | serializeOp spe ok =>
    show sizeCapInv (soa.serialize s spe ok).2
    exact soa_shrink_inv s ok h
  | deserializeOp n spe ok =>
    have hok1 : ok = true := hok
    show sizeCapInv (soa.deserialize s n spe ok).2
    rw [hok1]
    unfold soa.deserialize
    have hcap := soa_reserve_true_cap s n true (soa_reserve_ok_true s n)
    have hinv := soa_reserve_inv s n true h
    have h3 := le_growTarget n
    exact ⟨hinv.1, by
      show n ≤ (soa.reserve s n true).2.mycapacity
      omega⟩

theorem htable_reserve_specH {K V : Type} [Inhabited K] [Inhabited V]
    [DecidableEq K] (H : K → Nat) (t : htable K V) (n : Nat) (ok : Bool) :
    ∀ r, htable.reserve H t n ok = some r →
      r.2.mysize = t.mysize ∧
      (r.2.mycapacity = t.mycapacity ∨ (r.2.mycapacity = growTarget n ∧
                  t.mycapacity < growTarget n)) ∧
      (r.1 = true → growTarget n ≤ r.2.mycapacity) ∧
      (ok = true → r.1 = true) := by
  intro r hr
  simp only [htable.reserve] at hr
  by_cases h1 : growTarget n ≤ t.mycapacity
  · rw [if_pos h1] at hr
    injection hr with h2
    cases h2
    exact ⟨rfl, Or.inl rfl, fun _ => h1, fun _ => rfl⟩
  · rw [if_neg h1] at hr
    cases ok with
    | false =>
      simp only [Bool.false_eq_true, if_false] at hr
      injection hr with h2
      cases h2
      refine ⟨rfl, Or.inl rfl, ?_, ?_⟩
      · intro hc
        exact absurd hc (by simp)
      · intro hc
        exact absurd hc (by simp)
    | true =>
      rw [if_pos (Eq.refl true)] at hr
      rw [Option.map_eq_some'] at hr
      obtain ⟨t2, hre, h2⟩ := hr
      cases h2
      obtain ⟨hc, hh, hs, hd⟩ := rehash_fields H hre
      have hc1 : t2.mycapacity = growTarget n := hc
      have hs1 : t2.mysize = t.mysize := hs
      refine ⟨hs1, Or.inr ⟨hc1, by omega⟩, ?_, fun _ => rfl⟩
      intro _
      rw [hc1]

theorem htable_reserve_invH {K V : Type} [Inhabited K] [Inhabited V]
    [DecidableEq K] (H : K → Nat) (t : htable K V) (n : Nat) (ok : Bool)
    (h : sizeCapInvH t) :
    ∀ r, htable.reserve H t n ok = some r → sizeCapInvH r.2 := by
  intro r hr
  obtain ⟨hs, hcases, -, -⟩ := htable_reserve_specH H t n ok r hr
  rcases hcases with he | ⟨hc, hlt⟩
  · have h1 : r.2.mycapacity % 16 = 0 := by
      rw [he]
      exact h.1
    have h2 : r.2.mysize ≤ r.2.mycapacity := by
      rw [he, hs]
      exact h.2
    exact ⟨h1, h2⟩
  · refine ⟨?_, ?_⟩
    · rw [hc]
      exact growTarget_mod n
    · rw [hc, hs]
      have h2 := h.2
      omega

theorem htable_shrink_specH {K V : Type} [Inhabited K] [Inhabited V]
    [DecidableEq K] (H : K → Nat) (t : htable K V) (ok : Bool) :
    ∀ r, htable.shrink_to_fit H t ok = some r →
      r.2.mysize = t.mysize ∧
      (r.2.mycapacity = t.mycapacity ∨
       r.2.mycapacity = roundup16 t.mysize) := by
  intro r hr
  simp only [htable.shrink_to_fit] at hr
  by_cases h1 : roundup16 t.mysize = t.mycapacity
  · rw [if_pos h1] at hr
    injection hr with h2
    cases h2
    exact ⟨rfl, Or.inl rfl⟩
  · rw [if_neg h1] at hr
    by_cases h2 : 0 < roundup16 t.mysize
    · rw [if_pos h2] at hr
      cases ok with
      | false =>
        simp only [Bool.false_eq_true, if_false] at hr
        injection hr with h3
        cases h3
        exact ⟨rfl, Or.inl rfl⟩
      | true =>
        rw [if_pos (Eq.refl true)] at hr
        rw [Option.map_eq_some'] at hr
        obtain ⟨t2, hre, h3⟩ := hr
        cases h3
        obtain ⟨hc, -, hs, -⟩ := rehash_fields H hre
        exact ⟨hs, Or.inr hc⟩
    · rw [if_neg h2] at hr
      rw [Option.map_eq_some'] at hr
      obtain ⟨t2, hre, h3⟩ := hr
      cases h3
      obtain ⟨hc, -, hs, -⟩ := rehash_fields H hre
      have hc1 : t2.mycapacity = 0 := hc
      have hz : roundup16 t.mysize = 0 := by omega
      refine ⟨hs, Or.inr ?_⟩
      show t2.mycapacity = roundup16 t.mysize
      omega

theorem htable_shrink_invH {K V : Type} [Inhabited K] [Inhabited V]
    [DecidableEq K] (H : K → Nat) (t : htable K V) (ok : Bool)
    (h : sizeCapInvH t) :
    ∀ r, htable.shrink_to_fit H t ok = some r → sizeCapInvH r.2 := by
  intro r hr
  obtain ⟨hs, hcases⟩ := htable_shrink_specH H t ok r hr
  rcases hcases with he | hc
  · have h1 : r.2.mycapacity % 16 = 0 := by
      rw [he]
      exact h.1
    have h2 : r.2.mysize ≤ r.2.mycapacity := by
      rw [he, hs]
      exact h.2
    exact ⟨h1, h2⟩
  · refine ⟨?_, ?_⟩
    · rw [hc]
      exact roundup16_mod t.mysize
    · rw [hc, hs]
      exact le_roundup16 t.mysize

theorem htable_find_fields {K V : Type} [Inhabited K] [Inhabited V]
    [DecidableEq K] (H : K → Nat) (t : htable K V) (k : K) (restart : Bool) :
    ∀ r, htable.find H t k restart = some r →
      r.2.mysize = t.mysize ∧ r.2.mycapacity = t.mycapacity := by
  intro r hr
  unfold htable.find at hr
  split at hr
  · injection hr with h2
    cases h2
    exact ⟨rfl, rfl⟩
  · split at hr
    · rw [Option.map_eq_some'] at hr
      obtain ⟨rc, -, h2⟩ := hr
      cases h2
      exact ⟨rfl, rfl⟩
    · split at hr
      · injection hr with h2
        cases h2
        exact ⟨rfl, rfl⟩
      · rw [Option.map_eq_some'] at hr
        obtain ⟨rc, -, h2⟩ := hr
        cases h2
        exact ⟨rfl, rfl⟩

theorem erase_foundAux_fields {K V : Type} [Inhabited K] [Inhabited V]
    [DecidableEq K] (H : K → Nat) (t : htable K V) (fuel : Nat) :
    ∀ r, htable.erase_foundAux H t fuel = some r →
      r.2.mycapacity = t.mycapacity ∧ r.2.mysize ≤ t.mysize := by
  intro r hr
  simp only [htable.erase_foundAux] at hr
  split at hr
  · injection hr with h2
    cases h2
    exact ⟨rfl, Nat.le_refl _⟩
  · split at hr
    · injection hr with h2
      cases h2
      exact ⟨rfl, Nat.le_refl _⟩
    · rw [Option.map_eq_some'] at hr
      obtain ⟨hm, -, h2⟩ := hr
      cases h2
      constructor
      · show (t.tosoa.erase_swap (t.hashmap t.hashcursor)).mycapacity =
          t.mycapacity
        unfold soa.erase_swap
        split
        · rfl
        · rfl
      · show (t.tosoa.erase_swap (t.hashmap t.hashcursor)).mysize ≤ t.mysize
        unfold soa.erase_swap
        split
        · exact Nat.le_refl _
        · show t.mysize - 1 ≤ t.mysize
          omega

theorem htable_erase_fields {K V : Type} [Inhabited K] [Inhabited V]
    [DecidableEq K] (H : K → Nat) (t : htable K V) (k : K) :
    ∀ r, htable.erase H t k = some r →
      r.2.mycapacity = t.mycapacity ∧ r.2.mysize ≤ t.mysize := by
  intro r hr
  unfold htable.erase at hr
  rw [Option.bind_eq_some] at hr
  obtain ⟨rt, h1, h2⟩ := hr
  obtain ⟨hfs, hfc⟩ := htable_find_fields H t k true rt h1
  obtain ⟨hec, hes⟩ := erase_foundAux_fields H rt.2 rt.2.hashcapacity r h2
  exact ⟨by rw [hec, hfc], by omega⟩

theorem erase_allAux_fields {K V : Type} [Inhabited K] [Inhabited V]
    [DecidableEq K] (H : K → Nat) (k : K) :
    ∀ (fuel : Nat) (t : htable K V) (restart : Bool) (acc : Nat) r,
      htable.erase_allAux H k fuel t restart acc = some r →
      r.2.mycapacity = t.mycapacity ∧ r.2.mysize ≤ t.mysize := by
  intro fuel
  induction fuel with
  | zero =>
    intro t restart acc r hr
    exact absurd hr (by simp [htable.erase_allAux])
  | succ n ih =>
    intro t restart acc r hr
    unfold htable.erase_allAux at hr
    rw [Option.bind_eq_some] at hr
    obtain ⟨rt, h1, h2⟩ := hr
    obtain ⟨hfs, hfc⟩ := htable_find_fields H t k restart rt h1
    by_cases hterm : rt.1 = SIZE_MAX
    · rw [if_pos hterm] at h2
      injection h2 with h3
      cases h3
      refine ⟨hfc, ?_⟩
      show rt.2.mysize ≤ t.mysize
      omega
    · rw [if_neg hterm] at h2
      rw [Option.bind_eq_some] at h2
      obtain ⟨nt, h3, h4⟩ := h2
      obtain ⟨hec, hes⟩ := erase_foundAux_fields H rt.2 rt.2.hashcapacity nt h3
      obtain ⟨hc2, hs2⟩ := ih nt.2 false (acc + nt.1) r h4
      exact ⟨by rw [hc2, hec, hfc], by omega⟩

theorem erase_found_sorted_fields {K V : Type} [Inhabited K] [Inhabited V]
    [DecidableEq K] (H : K → Nat) (t : htable K V) :
    ∀ r, htable.erase_found_sorted H t = some r →
      r.2.mycapacity = t.mycapacity ∧ r.2.mysize ≤ t.mysize := by
  intro r hr
  simp only [htable.erase_found_sorted] at hr
  split at hr
  · injection hr with h2
    cases h2
    exact ⟨rfl, Nat.le_refl _⟩
  · split at hr
    · injection hr with h2
      cases h2
      exact ⟨rfl, Nat.le_refl _⟩
    · rw [Option.map_eq_some'] at hr
      obtain ⟨t3, hre, h2⟩ := hr
      cases h2
      obtain ⟨hc, -, hs, -⟩ := rehash_fields H hre
      have hc1 : t3.mycapacity =
          (t.tosoa.erase_shift (t.hashmap t.hashcursor)).mycapacity := hc
      have hs1 : t3.mysize =
          (t.tosoa.erase_shift (t.hashmap t.hashcursor)).mysize := hs
      constructor
      · show t3.mycapacity = t.mycapacity
        rw [hc1]
        unfold soa.erase_shift
        split
        · rfl
        · rfl
      · show t3.mysize ≤ t.mysize
        rw [hs1]
        unfold soa.erase_shift
        split
        · exact Nat.le_refl _
        · show t.mysize - 1 ≤ t.mysize
          omega

theorem htable_swap_fields {K V : Type} [Inhabited K] [Inhabited V]
    [DecidableEq K] (H : K → Nat) (t : htable K V) (a b : Nat) :
    ∀ r, htable.swap_entries H t a b = some r →
      r.mysize = t.mysize ∧ r.mycapacity = t.mycapacity := by
  intro r hr
  simp only [htable.swap_entries] at hr
  rw [Option.bind_eq_some] at hr
  obtain ⟨p1, -, h2⟩ := hr
  rw [Option.map_eq_some'] at h2
  obtain ⟨p2, -, h3⟩ := h2
  cases h3
  constructor
  · show (t.tosoa.swap_entries a b).mysize = t.mysize
    unfold soa.swap_entries
    split
    · rfl
    · rfl
  · show (t.tosoa.swap_entries a b).mycapacity = t.mycapacity
    unfold soa.swap_entries
    split
    · rfl
    · rfl

theorem sortSwaps_fields {K V : Type} [Inhabited K] [Inhabited V]
    [DecidableEq K] (H : K → Nat) :
    ∀ (swaps : List (Nat × Nat)) (t : htable K V) r,
      htable.sortSwaps H swaps t = some r →
      r.mysize = t.mysize ∧ r.mycapacity = t.mycapacity := by
  intro swaps
  induction swaps with
  | nil =>
    intro t r hr
    obtain ⟨hc, -, hs, -⟩ := rehash_fields H hr
    exact ⟨hs, hc⟩
  | cons ab rest ih =>
    intro t r hr
    unfold htable.sortSwaps at hr
    obtain ⟨hs, hc⟩ := ih _ r hr
    constructor
    · rw [hs]
      show (t.tosoa.swap_entries ab.1 ab.2).mysize = t.mysize
      unfold soa.swap_entries
      split
      · rfl
      · rfl
    · rw [hc]
      show (t.tosoa.swap_entries ab.1 ab.2).mycapacity = t.mycapacity
      unfold soa.swap_entries
      split
      · rfl
      · rfl

theorem htable_insert_invH {K V : Type} [Inhabited K] [Inhabited V]
    [DecidableEq K] (H : K → Nat) (t : htable K V) (k : K) (v : V)
    (ok : Bool) (h : sizeCapInvH t) :
    ∀ r, htable.insert H t k v ok = some r → sizeCapInvH r.2 := by
  intro r hr
  unfold htable.insert at hr
  split at hr
  · injection hr with h2
    cases h2
    exact h
  · rw [Option.bind_eq_some] at hr
    obtain ⟨r0, h1, h2⟩ := hr
    obtain ⟨b0, t0⟩ := r0
    by_cases hfull : t.mysize = t.mycapacity
    · rw [if_pos hfull] at h1
      obtain ⟨hs0, -, htrue0, -⟩ :=
        htable_reserve_specH H t (t.mycapacity * 2) ok _ h1
      have hinv0 := htable_reserve_invH H t (t.mycapacity * 2) ok h _ h1
      cases b0 with
      | false =>
        injection h2 with h3
        cases h3
        exact hinv0
      | true =>
        simp only at h2
        rw [Option.map_eq_some'] at h2
        obtain ⟨slot, -, h3⟩ := h2
        cases h3
        have hc2 : growTarget (t.mycapacity * 2) ≤ t0.mycapacity :=
          htrue0 rfl
        have hs1 : t0.mysize = t.mysize := hs0
        refine ⟨hinv0.1, ?_⟩
        show t0.mysize + 1 ≤ t0.mycapacity
        have h3 := le_growTarget (t.mycapacity * 2)
        have h4 := growTarget_pos (t.mycapacity * 2)
        omega
    · rw [if_neg hfull] at h1
      injection h1 with h3
      injection h3 with h4 h5
      cases h4
      cases h5
      simp only at h2
      rw [Option.map_eq_some'] at h2
      obtain ⟨slot, -, h3⟩ := h2
      cases h3
      refine ⟨h.1, ?_⟩
      show t.mysize + 1 ≤ t.mycapacity
      have h5 := h.2
      omega

theorem htable_op_inv {K V : Type} [Inhabited K] [Inhabited V]
    [DecidableEq K] (H : K → Nat) (op : HOp K V) (t : htable K V)
    (hok : HOp.okAlloc op = true) (h : sizeCapInvH t) :
    ∀ t', applyHOp H op t = some t' → sizeCapInvH t' := by
  intro t' ht'
  cases op with
  | reserveOp n ok =>
    replace ht' : (htable.reserve H t n ok).map Prod.snd = some t' := ht'
    rw [Option.map_eq_some'] at ht'
    obtain ⟨r, hre, h2⟩ := ht'
    rw [← h2]
    exact htable_reserve_invH H t n ok h r hre
  | shrinkOp ok =>
    replace ht' : (htable.shrink_to_fit H t ok).map Prod.snd = some t' := ht'
    rw [Option.map_eq_some'] at ht'
    obtain ⟨r, hre, h2⟩ := ht'
    rw [← h2]
    exact htable_shrink_invH H t ok h r hre
  | insertOp k v ok =>
    replace ht' : (htable.insert H t k v ok).map Prod.snd = some t' := ht'
    rw [Option.map_eq_some'] at ht'
    obtain ⟨r, hre, h2⟩ := ht'
    rw [← h2]
    exact htable_insert_invH H t k v ok h r hre
  | findOp k restart =>
    replace ht' : (htable.find H t k restart).map Prod.snd = some t' := ht'
    rw [Option.map_eq_some'] at ht'
    obtain ⟨r, hre, h2⟩ := ht'
    obtain ⟨hs, hc⟩ := htable_find_fields H t k restart r hre
    rw [← h2]
    exact ⟨by rw [hc]; exact h.1, by rw [hc, hs]; exact h.2⟩
  | eraseFoundOp =>
    replace ht' : (htable.erase_found H t).map Prod.snd = some t' := ht'
    rw [Option.map_eq_some'] at ht'
    obtain ⟨r, hre, h2⟩ := ht'
    obtain ⟨hc, hs⟩ := erase_foundAux_fields H t t.hashcapacity r hre
    rw [← h2]
    refine ⟨by rw [hc]; exact h.1, ?_⟩
    rw [hc]
    have h2a := h.2
    omega
  | eraseOp k =>
    replace ht' : (htable.erase H t k).map Prod.snd = some t' := ht'
    rw [Option.map_eq_some'] at ht'
    obtain ⟨r, hre, h2⟩ := ht'
    obtain ⟨hc, hs⟩ := htable_erase_fields H t k r hre
    rw [← h2]
    refine ⟨by rw [hc]; exact h.1, ?_⟩
    rw [hc]
    have h2a := h.2
    omega
  | eraseAllOp k =>
    replace ht' : (htable.erase_all H t k).map Prod.snd = some t' := ht'
    rw [Option.map_eq_some'] at ht'
    obtain ⟨r, hre, h2⟩ := ht'
    obtain ⟨hc, hs⟩ := erase_allAux_fields H k (t.mysize + 1) t true 0 r hre
    rw [← h2]
    refine ⟨by rw [hc]; exact h.1, ?_⟩
    rw [hc]
    have h2a := h.2
    omega
  | eraseFoundSortedOp =>
    replace ht' : (htable.erase_found_sorted H t).map Prod.snd = some t' := ht'
    rw [Option.map_eq_some'] at ht'
    obtain ⟨r, hre, h2⟩ := ht'
    obtain ⟨hc, hs⟩ := erase_found_sorted_fields H t r hre
    rw [← h2]
    refine ⟨by rw [hc]; exact h.1, ?_⟩
    rw [hc]
    have h2a := h.2
    omega
  | eraseSortedOp k =>
    replace ht' : (htable.erase_sorted H t k).map Prod.snd = some t' := ht'
    rw [Option.map_eq_some'] at ht'
    obtain ⟨r, hre, h2⟩ := ht'
    unfold htable.erase_sorted at hre
    rw [Option.bind_eq_some] at hre
    obtain ⟨rt, hfind, hes⟩ := hre
    obtain ⟨hfs, hfc⟩ := htable_find_fields H t k true rt hfind
    obtain ⟨hc, hs⟩ := erase_found_sorted_fields H rt.2 r hes
    rw [← h2]
    refine ⟨by rw [hc, hfc]; exact h.1, ?_⟩
    rw [hc, hfc]
    have h2a := h.2
    omega
  | rehashOp =>
    replace ht' : htable.rehash H t = some t' := ht'
    obtain ⟨hc, -, hs, -⟩ := rehash_fields H ht'
    exact ⟨by rw [hc]; exact h.1, by rw [hc, hs]; exact h.2⟩
  | clearOp =>
    replace ht' : some (htable.clear t) = some t' := ht'
    injection ht' with h2
    rw [← h2]
    exact ⟨h.1, by
      show (0 : Nat) ≤ t.mycapacity
      omega⟩
  | swapEntriesOp a b =>
    replace ht' : htable.swap_entries H t a b = some t' := ht'
    obtain ⟨hs, hc⟩ := htable_swap_fields H t a b t' ht'
    exact ⟨by rw [hc]; exact h.1, by rw [hc, hs]; exact h.2⟩
  | serializeOp spe ok =>
    replace ht' : (htable.serialize H t spe ok).map Prod.snd = some t' := ht'
    rw [Option.map_eq_some'] at ht'
    obtain ⟨r, hre, h2⟩ := ht'
    unfold htable.serialize at hre
    rw [Option.map_eq_some'] at hre
    obtain ⟨rs, hsh, h3⟩ := hre
    rw [← h2, ← h3]
    exact htable_shrink_invH H t ok h rs hsh
  | deserializeOp n spe ok =>
    have hok1 : ok = true := hok
    subst hok1
    replace ht' : (htable.deserialize H t n spe true).map Prod.snd = some t' :=
      ht'
    rw [Option.map_eq_some'] at ht'
    obtain ⟨r, hre, h2⟩ := ht'
    unfold htable.deserialize at hre
    rw [Option.map_eq_some'] at hre
    obtain ⟨rs, hres, h3⟩ := hre
    obtain ⟨hs0, -, htrue0, hok0⟩ :=
      htable_reserve_specH H t n true rs hres
    have hinv0 := htable_reserve_invH H t n true h rs hres
    have hcap : growTarget n ≤ rs.2.mycapacity := htrue0 (hok0 rfl)
    rw [← h2, ← h3]
    refine ⟨hinv0.1, ?_⟩
    show n ≤ rs.2.mycapacity
    have h3a := le_growTarget n
    omega
  | sortOp swaps =>
    replace ht' : htable.sortSwaps H swaps t = some t' := ht'
    obtain ⟨hs, hc⟩ := sortSwaps_fields H swaps t t' ht'
    exact ⟨by rw [hc]; exact h.1, by rw [hc, hs]; exact h.2⟩

theorem runSoa_inv {α : Type} [Inhabited α] (ops : List (SoaOp α))
    (h : ∀ op ∈ ops, SoaOp.okAlloc op = true) : sizeCapInv (runSoa ops) := by
  have main : ∀ (l : List (SoaOp α)) (s : soa α), sizeCapInv s →
      (∀ op ∈ l, SoaOp.okAlloc op = true) →
      sizeCapInv (l.foldl (fun s op => applySoaOp op s) s) := by
    intro l
    induction l with
    | nil =>
      intro s hs _
      exact hs
    | cons op rest ih =>
      intro s hs hok
      rw [List.foldl_cons]
      exact ih (applySoaOp op s)
        (soa_op_inv op s (hok op (List.mem_cons_self op rest)) hs)
        (fun o ho => hok o (List.mem_cons_of_mem op ho))
  exact main ops soa.empty ⟨rfl, Nat.le_refl 0⟩ h

theorem runH_inv {K V : Type} [Inhabited K] [Inhabited V] [DecidableEq K]
    (H : K → Nat) (ops : List (HOp K V))
    (h : ∀ op ∈ ops, HOp.okAlloc op = true) :
    ∀ t, runH H ops = some t → sizeCapInvH t := by
  have main : ∀ (l : List (HOp K V)) (o : Option (htable K V)),
      (∀ t0, o = some t0 → sizeCapInvH t0) →
      (∀ op ∈ l, HOp.okAlloc op = true) →
      ∀ t, l.foldl (fun o op => o.bind (applyHOp H op)) o = some t →
        sizeCapInvH t := by
    intro l
    induction l with
    | nil =>
      intro o ho _ t ht
      exact ho t ht
    | cons op rest ih =>
      intro o ho hok t ht
      rw [List.foldl_cons] at ht
      refine ih (o.bind (applyHOp H op)) ?_
        (fun o2 ho2 => hok o2 (List.mem_cons_of_mem op ho2)) t ht
      intro t0 ht0
      rw [Option.bind_eq_some] at ht0
      obtain ⟨t1, h1, h2⟩ := ht0
      exact htable_op_inv H op t1 (hok op (List.mem_cons_self op rest))
        (ho t1 h1) t0 h2
  intro t ht
  refine main ops (some htable.empty) ?_ h t ht
  intro t0 ht0
  injection ht0 with h2
  rw [← h2]
  exact ⟨rfl, Nat.le_refl 0⟩

/-- C5 (amended): in every state reachable from a default-constructed `soa`
or `htable` through the public operations in which every attempted
allocation succeeds, `capacity % 16 == 0` and `size ≤ capacity`.  Without
the allocation caveat the claim fails: `deserialize` ignores the result of
its internal `reserve`, so a `deserialize` whose allocation fails sets
`size` above the unchanged `capacity`
(see `deserialize_alloc_failure_breaks_invariant`). -/
theorem quantization_invariant_reachable {α : Type} [Inhabited α]
    {K V : Type} [Inhabited K] [Inhabited V] [DecidableEq K] (H : K → Nat)
    (ops : List (SoaOp α)) (hops : ∀ op ∈ ops, SoaOp.okAlloc op = true)
    (opsH : List (HOp K V)) (hopsH : ∀ op ∈ opsH, HOp.okAlloc op = true) :
    sizeCapInv (runSoa ops) ∧
    (∀ t, runH H opsH = some t → sizeCapInvH t) :=
  ⟨runSoa_inv ops hops, runH_inv H opsH hopsH⟩

/-- C5 counterexample: one public operation from the default-constructed
container — a `deserialize(100)` whose internal allocation fails — already
breaks `size ≤ capacity`, refuting the claim as stated (which quantifies
over all reachable states, allocation failures included). -/
theorem deserialize_alloc_failure_breaks_invariant :
    (runSoa [(SoaOp.deserializeOp 100 4 false : SoaOp Nat)]).mysize = 100 ∧
    (runSoa [(SoaOp.deserializeOp 100 4 false : SoaOp Nat)]).mycapacity = 0 ∧
    ¬ sizeCapInv (runSoa [(SoaOp.deserializeOp 100 4 false : SoaOp Nat)]) :=
  ⟨rfl, rfl, by decide⟩

/-- Witness for `quantization_invariant_reachable` on short concrete
traces. -/
theorem quantization_invariant_witness :
    ((∀ op ∈ ([SoaOp.pushBackOp 5 true, SoaOp.reserveOp 100 true] :
        List (SoaOp Nat)), SoaOp.okAlloc op = true) ∧
     (∀ op ∈ ([HOp.insertOp 1 2 true, HOp.findOp 1 true] :
        List (HOp Nat Nat)), HOp.okAlloc op = true)) ∧
    sizeCapInv (runSoa
      [SoaOp.pushBackOp 5 true, SoaOp.reserveOp 100 true]) ∧
    (∀ t, runH (fun x => x)
        [HOp.insertOp 1 2 true, HOp.findOp 1 true] = some t →
      sizeCapInvH t) := by
  refine ⟨⟨by decide, by decide⟩, ?_, ?_⟩
  · exact (quantization_invariant_reachable (fun x => x)
      [SoaOp.pushBackOp 5 true, SoaOp.reserveOp 100 true] (by decide)
      ([] : List (HOp Nat Nat)) (by decide)).1
  · exact (quantization_invariant_reachable (fun x => x)
      ([] : List (SoaOp Nat)) (by decide)
      [HOp.insertOp 1 2 true, HOp.findOp 1 true] (by decide)).2

/-! ## Probe-loop characterization -/

/-- A probe loop exits with the value its body produces at the first probe
position whose body fires, provided the fuel reaches that position. -/
theorem probeLoop_spec {β : Type} (body : Nat → Option β) (m : Nat) :
    ∀ (j c0 fuel : Nat) (b : β), c0 < m →
      (∀ i, i < j → body (probe c0 i m) = none) →
      body (probe c0 j m) = some b →
      j < fuel →
      probeLoop body m c0 fuel = some b := by
  intro j
  induction j with
  | zero =>
    intro c0 fuel b hc0 _ hsome hfuel
    cases fuel with
    | zero => omega
    | succ f =>
      unfold probeLoop
      rw [probe_zero, Nat.mod_eq_of_lt hc0] at hsome
      rw [hsome]
  | succ j ih =>
    intro c0 fuel b hc0 hnone hsome hfuel
    cases fuel with
    | zero => omega
    | succ f =>
      unfold probeLoop
      have h0 : body c0 = none := by
        have := hnone 0 (Nat.succ_pos j)
        rw [probe_zero, Nat.mod_eq_of_lt hc0] at this
        exact this
      rw [h0]
      refine ih (hash_inc m c0) f b (Nat.mod_lt _ ?_) ?_ ?_ (by omega)
      · omega
      · intro i hi
        rw [← probe_shift]
        exact hnone (i + 1) (by omega)
      · rw [← probe_shift]
        exact hsome

/-- A probe loop whose body never fires returns `none` for every fuel:
the C++ loop never exits. -/
theorem probeLoop_none {β : Type} (body : Nat → Option β) (m : Nat)
    (h : ∀ c, body c = none) : ∀ (fuel c0 : Nat),
    probeLoop body m c0 fuel = none := by
  intro fuel
  induction fuel with
  | zero =>
    intro c0
    rfl
  | succ f ih =>
    intro c0
    unfold probeLoop
    rw [h c0]
    exact ih (hash_inc m c0)

/-! ## Claim C2: `erase_found` -/

theorem not_sentinel_of_lt {v n cap : Nat} (h1 : v < n) (h2 : n ≤ cap)
    (h3 : cap ≤ HTABLE_MAX_SIZE) : v ≠ INDEXNUL ∧ v ≠ INDEXDEL := by
  unfold HTABLE_MAX_SIZE at h3
  unfold INDEXNUL INDEXDEL
  omega

theorem erase_swap_size {α : Type} (s : soa α) (loc : Nat)
    (h : loc < s.mysize) : (soa.erase_swap s loc).mysize = s.mysize - 1 := by
  unfold soa.erase_swap
  rw [if_neg (by omega : ¬ loc ≥ s.mysize)]

theorem erase_swap_cap {α : Type} (s : soa α) (loc : Nat) :
    (soa.erase_swap s loc).mycapacity = s.mycapacity := by
  unfold soa.erase_swap
  split
  · rfl
  · rfl

theorem erase_swap_data {α : Type} (s : soa α) (loc : Nat)
    (h : loc < s.mysize) :
    (soa.erase_swap s loc).mydata =
      upd (upd s.mydata loc (s.mydata (s.mysize - 1))) (s.mysize - 1)
        (s.mydata loc) := by
  unfold soa.erase_swap
  rw [if_neg (by omega : ¬ loc ≥ s.mysize)]

/-- `erase_found` when the most recent `find` did not leave the cursor on an
occupied slot: nothing is erased and the table is unchanged. -/
theorem erase_found_notfound {K V : Type} [Inhabited K] [Inhabited V]
    [DecidableEq K] (H : K → Nat) (t : htable K V)
    (h : t.hashcapacity ≤ t.hashcursor ∨ t.hashmap t.hashcursor = INDEXNUL ∨
         t.hashmap t.hashcursor = INDEXDEL) :
    htable.erase_found H t = some (0, t) := by
  simp only [htable.erase_found, htable.erase_foundAux]
  by_cases hge : t.hashcursor ≥ t.hashcapacity
  · rw [if_pos hge]
  · rw [if_neg hge]
    have h2 : t.hashmap t.hashcursor = INDEXNUL ∨
        t.hashmap t.hashcursor = INDEXDEL := by
      rcases h with h | h
      · omega
      · exact h
    rw [if_pos h2]

theorem INDEXDEL_ne_INDEXNUL : INDEXDEL ≠ INDEXNUL := by
  unfold INDEXDEL INDEXNUL
  omega

/-- The heart of claim C2, found case: with the cursor on an occupied slot,
`erase_found` erases that row, relocates the old last row into its index,
tombstones the cursor slot, repairs the single slot that referenced the old
last row, and re-establishes the reachability invariant — provided at least
one slot is EMPTY (needed so the repair walk of the `i == size-1` case can
terminate). -/
theorem erase_found_found_spec {K V : Type} [Inhabited K] [Inhabited V]
    [DecidableEq K] (H : K → Nat) (t : htable K V)
    (hodd : Odd t.hashcapacity)
    (hszcap : t.mysize ≤ t.mycapacity)
    (hcapmax : t.mycapacity ≤ HTABLE_MAX_SIZE)
    (hreach : slotReachInv H t) (hinj : slotInj t) (htotal : slotTotal t)
    (hnul : ∃ s, s < t.hashcapacity ∧ t.hashmap s = INDEXNUL)
    (hcur : t.hashcursor < t.hashcapacity)
    (hN : t.hashmap t.hashcursor ≠ INDEXNUL)
    (hD : t.hashmap t.hashcursor ≠ INDEXDEL) :
    ∃ t', htable.erase_found H t = some (1, t') ∧
      t'.mysize = t.mysize - 1 ∧
      t'.mycapacity = t.mycapacity ∧
      t'.hashcapacity = t.hashcapacity ∧
      t'.hashcursor = t.hashcursor ∧
      t'.hashmap t.hashcursor = INDEXDEL ∧
      (∀ r, r < t.mysize - 1 →
        t'.mydata r = if r = t.hashmap t.hashcursor
                      then t.mydata (t.mysize - 1) else t.mydata r) ∧
      (∀ s, s < t.hashcapacity → s ≠ t.hashcursor →
        t'.hashmap s = if t.hashmap s = t.mysize - 1
                       then t.hashmap t.hashcursor else t.hashmap s) ∧
      slotReachInv H t' := by
  have hm0 : 0 < t.hashcapacity := by
    rcases hodd with ⟨k, hk⟩
    omega
  have hilt : t.hashmap t.hashcursor < t.mysize := (hreach _ hcur hN hD).1
  have hpos : 0 < t.mysize := by omega
  have hlastlt : t.mysize - 1 < t.mysize := by omega
  have hlastsent := not_sentinel_of_lt hlastlt hszcap hcapmax
  have hdelsent := not_sentinel_of_lt hilt hszcap hcapmax
  have hT2data := erase_swap_data t.tosoa (t.hashmap t.hashcursor) hilt
  -- `erase_found` reduced to its repair walk:
  have hstep : htable.erase_found H t =
      (probeLoop
        (htable.repairBody
          ({ t with tosoa := t.tosoa.erase_swap (t.hashmap t.hashcursor), hashmap := upd t.hashmap t.hashcursor INDEXDEL } : htable K V)
          (t.hashmap t.hashcursor))
        t.hashcapacity
        (H ((t.tosoa.erase_swap (t.hashmap t.hashcursor)).mydata
              (t.hashmap t.hashcursor)).1 % t.hashcapacity)
        t.hashcapacity).map
        (fun hm2 => (1,
          ({ t with tosoa := t.tosoa.erase_swap (t.hashmap t.hashcursor), hashmap := hm2 } : htable K V))) := by
    simp only [htable.erase_found, htable.erase_foundAux]
    rw [if_neg (by omega : ¬ t.hashcursor ≥ t.hashcapacity)]
    rw [if_neg (show ¬ (t.hashmap t.hashcursor = INDEXNUL ∨
        t.hashmap t.hashcursor = INDEXDEL) by
      push_neg
      exact ⟨hN, hD⟩)]
  -- the repair walk's body, in terms of the raw slot map:
  have hbody : ∀ p, htable.repairBody
      ({ t with tosoa := t.tosoa.erase_swap (t.hashmap t.hashcursor)
                hashmap := upd t.hashmap t.hashcursor INDEXDEL } :
        htable K V) (t.hashmap t.hashcursor) p =
      (if upd t.hashmap t.hashcursor INDEXDEL p = t.mysize - 1
       then some (upd (upd t.hashmap t.hashcursor INDEXDEL) p
         (t.hashmap t.hashcursor))
       else if upd t.hashmap t.hashcursor INDEXDEL p = INDEXNUL
       then some (upd t.hashmap t.hashcursor INDEXDEL)
       else none) := by
    intro p
    unfold htable.repairBody
    dsimp only
    rw [erase_swap_size t.tosoa (t.hashmap t.hashcursor) hilt]
  by_cases hself : t.hashmap t.hashcursor = t.mysize - 1
  -- ============ found row is the last row ============
  · -- the cursor slot was the unique holder of the last index; after it is
    -- tombstoned the walk only stops at the first EMPTY slot, with no write
    have hkey : (t.tosoa.erase_swap (t.hashmap t.hashcursor)).mydata
        (t.hashmap t.hashcursor) = t.mydata (t.mysize - 1) := by
      rw [hT2data]
      rw [← hself, upd_same]
    obtain ⟨sN, hsNlt, hsNval⟩ := hnul
    obtain ⟨jN, hjNlt, hjNprobe⟩ := probe_surj hodd
      (H ((t.tosoa.erase_swap (t.hashmap t.hashcursor)).mydata
        (t.hashmap t.hashcursor)).1 % t.hashcapacity) hsNlt
    have hex : ∃ j, t.hashmap (probe
        (H ((t.tosoa.erase_swap (t.hashmap t.hashcursor)).mydata
          (t.hashmap t.hashcursor)).1 % t.hashcapacity) j t.hashcapacity) =
        INDEXNUL := ⟨jN, by rw [hjNprobe]; exact hsNval⟩
    have hjmlt : Nat.find hex < t.hashcapacity := by
      have h1 := Nat.find_min' hex (by rw [hjNprobe]; exact hsNval)
      omega
    have hloop : probeLoop
        (htable.repairBody
          ({ t with tosoa := t.tosoa.erase_swap (t.hashmap t.hashcursor), hashmap := upd t.hashmap t.hashcursor INDEXDEL } : htable K V)
          (t.hashmap t.hashcursor))
        t.hashcapacity
        (H ((t.tosoa.erase_swap (t.hashmap t.hashcursor)).mydata
              (t.hashmap t.hashcursor)).1 % t.hashcapacity)
        t.hashcapacity = some (upd t.hashmap t.hashcursor INDEXDEL) := by
      apply probeLoop_spec _ _ (Nat.find hex) _ _ _
        (Nat.mod_lt _ hm0) _ _ hjmlt
      · intro i' hi'
        rw [hbody]
        have hnonul : t.hashmap (probe
            (H ((t.tosoa.erase_swap (t.hashmap t.hashcursor)).mydata
              (t.hashmap t.hashcursor)).1 % t.hashcapacity) i'
              t.hashcapacity) ≠ INDEXNUL := Nat.find_min hex hi'
        by_cases hp : probe
            (H ((t.tosoa.erase_swap (t.hashmap t.hashcursor)).mydata
              (t.hashmap t.hashcursor)).1 % t.hashcapacity) i'
              t.hashcapacity = t.hashcursor
        · rw [hp, upd_same]
          rw [if_neg (by
            intro hcontra
            have := hlastsent.2
            exact this hcontra.symm)]
          rw [if_neg INDEXDEL_ne_INDEXNUL]
        · rw [upd_ne _ _ _ hp]
          rw [if_neg ?hne1, if_neg hnonul]
          case hne1 =>
            intro hcontra
            have hocc := not_sentinel_of_lt (show t.mysize - 1 < t.mysize
              by omega) hszcap hcapmax
            have hps : probe
                (H ((t.tosoa.erase_swap (t.hashmap t.hashcursor)).mydata
                  (t.hashmap t.hashcursor)).1 % t.hashcapacity) i'
                  t.hashcapacity = t.hashcursor := by
              apply hinj _ (probe_lt _ _ hm0) _ hcur
              · rw [hcontra]
                exact hocc.1
              · rw [hcontra]
                exact hocc.2
              · rw [hcontra, hself]
            exact hp hps
      · rw [hbody]
        have hnulspec := Nat.find_spec hex
        have hpcur : probe
            (H ((t.tosoa.erase_swap (t.hashmap t.hashcursor)).mydata
              (t.hashmap t.hashcursor)).1 % t.hashcapacity) (Nat.find hex)
              t.hashcapacity ≠ t.hashcursor := by
          intro hcontra
          rw [hcontra] at hnulspec
          exact hN hnulspec
        rw [upd_ne _ _ _ hpcur]
        rw [if_neg (by
          rw [hnulspec]
          intro hcontra
          exact hlastsent.1 hcontra.symm)]
        rw [if_pos hnulspec]
    refine ⟨({ t with tosoa := t.tosoa.erase_swap (t.hashmap t.hashcursor), hashmap := upd t.hashmap t.hashcursor INDEXDEL } : htable K V), ?_, ?_, ?_, rfl, rfl, ?_, ?_, ?_, ?_⟩
    · rw [hstep, hloop]
      rfl
    · exact erase_swap_size t.tosoa _ hilt
    · exact erase_swap_cap t.tosoa _
    · exact upd_same _ _ _
    · intro r hr
      have hrne : r ≠ t.hashmap t.hashcursor := by omega
      rw [if_neg hrne]
      show (t.tosoa.erase_swap (t.hashmap t.hashcursor)).mydata r = t.mydata r
      rw [hT2data]
      rw [upd_ne _ _ _ (show r ≠ t.mysize - 1 by omega),
          upd_ne _ _ _ hrne]
    · intro s hslt hscur
      show upd t.hashmap t.hashcursor INDEXDEL s = _
      rw [upd_ne _ _ _ hscur]
      rw [if_neg (by
        intro hcontra
        apply hscur
        apply hinj _ hslt _ hcur
        · rw [hcontra]
          exact hlastsent.1
        · rw [hcontra]
          exact hlastsent.2
        · rw [hcontra, hself])]
    · -- reachability of the result
      intro s hslt hsN hsD
      have hslt' : s < t.hashcapacity := hslt
      have hval : ({ t with tosoa := t.tosoa.erase_swap (t.hashmap t.hashcursor), hashmap := upd t.hashmap t.hashcursor INDEXDEL } : htable K V).hashmap s = upd t.hashmap t.hashcursor INDEXDEL s := rfl
      have hscur : s ≠ t.hashcursor := by
        intro hcontra
        apply hsD
        rw [hval, hcontra, upd_same]
      rw [hval, upd_ne _ _ _ hscur] at hsN hsD ⊢
      obtain ⟨hvlt, j, hjlt, hjprobe, hjnonul⟩ := hreach s hslt' hsN hsD
      have hvne : t.hashmap s ≠ t.mysize - 1 := by
        intro hcontra
        apply hscur
        apply hinj _ hslt' _ hcur
        · exact hsN
        · exact hsD
        · rw [hcontra, hself]
      constructor
      · show t.hashmap s < (t.tosoa.erase_swap (t.hashmap t.hashcursor)).mysize
        rw [erase_swap_size t.tosoa _ hilt]
        omega
      · have hdata : ({ t with tosoa := t.tosoa.erase_swap (t.hashmap t.hashcursor), hashmap := upd t.hashmap t.hashcursor INDEXDEL } : htable K V).mydata (t.hashmap s) = t.mydata (t.hashmap s) := by
          show (t.tosoa.erase_swap (t.hashmap t.hashcursor)).mydata
            (t.hashmap s) = t.mydata (t.hashmap s)
          rw [hT2data]
          rw [upd_ne _ _ _ hvne, upd_ne _ _ _ (by
            rw [hself]
            exact hvne)]
        rw [hdata]
        refine ⟨j, hjlt, hjprobe, ?_⟩
        intro j' hj'
        have h1 := hjnonul j' hj'
        show upd t.hashmap t.hashcursor INDEXDEL _ ≠ INDEXNUL
        by_cases hp : probe (H (t.mydata (t.hashmap s)).1 % t.hashcapacity)
            j' t.hashcapacity = t.hashcursor
        · rw [hp, upd_same]
          exact INDEXDEL_ne_INDEXNUL
        · rw [upd_ne _ _ _ hp]
          exact h1
  -- ============ found row is not the last row ============
  · obtain ⟨s0, hs0lt, hs0val⟩ := htotal (t.mysize - 1) hlastlt
    have hs0N : t.hashmap s0 ≠ INDEXNUL := by
      rw [hs0val]
      exact hlastsent.1
    have hs0D : t.hashmap s0 ≠ INDEXDEL := by
      rw [hs0val]
      exact hlastsent.2
    have hs0cur : s0 ≠ t.hashcursor := by
      intro hcontra
      apply hself
      rw [← hs0val, hcontra]
    have hkey : (t.tosoa.erase_swap (t.hashmap t.hashcursor)).mydata
        (t.hashmap t.hashcursor) = t.mydata (t.mysize - 1) := by
      rw [hT2data]
      rw [upd_ne _ _ _ hself, upd_same]
    obtain ⟨-, j0, hj0lt, hj0probe, hj0nonul⟩ := hreach s0 hs0lt hs0N hs0D
    rw [hs0val] at hj0probe hj0nonul
    rw [← hkey] at hj0probe hj0nonul
    have huniq : ∀ s, s < t.hashcapacity → t.hashmap s = t.mysize - 1 →
        s = s0 := by
      intro s hslt hsval
      apply hinj _ hslt _ hs0lt
      · rw [hsval]
        exact hlastsent.1
      · rw [hsval]
        exact hlastsent.2
      · rw [hsval, hs0val]
    have hcuruniq : ∀ s, s < t.hashcapacity →
        t.hashmap s = t.hashmap t.hashcursor → s = t.hashcursor := by
      intro s hslt hsval
      apply hinj _ hslt _ hcur
      · rw [hsval]
        exact hN
      · rw [hsval]
        exact hD
      · exact hsval
    have hloop : probeLoop
        (htable.repairBody
          ({ t with tosoa := t.tosoa.erase_swap (t.hashmap t.hashcursor), hashmap := upd t.hashmap t.hashcursor INDEXDEL } : htable K V)
          (t.hashmap t.hashcursor))
        t.hashcapacity
        (H ((t.tosoa.erase_swap (t.hashmap t.hashcursor)).mydata
              (t.hashmap t.hashcursor)).1 % t.hashcapacity)
        t.hashcapacity =
        some (upd (upd t.hashmap t.hashcursor INDEXDEL) s0
          (t.hashmap t.hashcursor)) := by
      apply probeLoop_spec _ _ j0 _ _ _ (Nat.mod_lt _ hm0) _ _ hj0lt
      · intro i' hi'
        rw [hbody]
        have hnonul := hj0nonul i' hi'
        by_cases hp : probe
            (H ((t.tosoa.erase_swap (t.hashmap t.hashcursor)).mydata
              (t.hashmap t.hashcursor)).1 % t.hashcapacity) i'
              t.hashcapacity = t.hashcursor
        · rw [hp, upd_same]
          rw [if_neg (by
            intro hcontra
            exact hlastsent.2 hcontra.symm)]
          rw [if_neg INDEXDEL_ne_INDEXNUL]
        · rw [upd_ne _ _ _ hp]
          rw [if_neg ?hne2, if_neg hnonul]
          case hne2 =>
            intro hcontra
            have hps0 : probe
                (H ((t.tosoa.erase_swap (t.hashmap t.hashcursor)).mydata
                  (t.hashmap t.hashcursor)).1 % t.hashcapacity) i'
                  t.hashcapacity = s0 :=
              huniq _ (probe_lt _ _ hm0) hcontra
            have : i' = j0 := by
              apply probe_inj hodd (by omega) hj0lt
              rw [hps0, hj0probe]
            omega
      · rw [hbody]
        rw [hj0probe]
        rw [upd_ne _ _ _ hs0cur]
        rw [if_pos hs0val]
    refine ⟨({ t with tosoa := t.tosoa.erase_swap (t.hashmap t.hashcursor), hashmap := upd (upd t.hashmap t.hashcursor INDEXDEL) s0 (t.hashmap t.hashcursor) } : htable K V), ?_, ?_, ?_, rfl, rfl, ?_, ?_, ?_, ?_⟩
    · rw [hstep, hloop]
      rfl
    · exact erase_swap_size t.tosoa _ hilt
    · exact erase_swap_cap t.tosoa _
    · show upd (upd t.hashmap t.hashcursor INDEXDEL) s0
        (t.hashmap t.hashcursor) t.hashcursor = INDEXDEL
      rw [upd_ne _ _ _ (by
        intro hcontra
        exact hs0cur hcontra.symm), upd_same]
    · intro r hr
      show (t.tosoa.erase_swap (t.hashmap t.hashcursor)).mydata r = _
      rw [hT2data]
      by_cases hri : r = t.hashmap t.hashcursor
      · rw [if_pos hri, hri]
        rw [upd_ne _ _ _ hself, upd_same]
      · rw [if_neg hri]
        rw [upd_ne _ _ _ (show r ≠ t.mysize - 1 by omega),
            upd_ne _ _ _ hri]
    · intro s hslt hscur
      show upd (upd t.hashmap t.hashcursor INDEXDEL) s0
        (t.hashmap t.hashcursor) s = _
      by_cases hss0 : s = s0
      · rw [hss0, upd_same, hs0val, if_pos rfl]
      · rw [upd_ne _ _ _ hss0, upd_ne _ _ _ hscur]
        rw [if_neg (by
          intro hcontra
          exact hss0 (huniq s hslt hcontra))]
    · -- reachability of the result
      intro s hslt hsN hsD
      have hslt' : s < t.hashcapacity := hslt
      have hval : ({ t with tosoa := t.tosoa.erase_swap (t.hashmap t.hashcursor), hashmap := upd (upd t.hashmap t.hashcursor INDEXDEL) s0 (t.hashmap t.hashcursor) } : htable K V).hashmap s =
          upd (upd t.hashmap t.hashcursor INDEXDEL) s0
            (t.hashmap t.hashcursor) s := rfl
      have hscur : s ≠ t.hashcursor := by
        intro hcontra
        apply hsD
        rw [hval, hcontra]
        rw [upd_ne _ _ _ (by
          intro hc2
          exact hs0cur hc2.symm), upd_same]
      have hnulsub : ∀ x, upd (upd t.hashmap t.hashcursor INDEXDEL) s0
          (t.hashmap t.hashcursor) x = INDEXNUL → t.hashmap x = INDEXNUL := by
        intro x hx
        by_cases hx0 : x = s0
        · rw [hx0, upd_same] at hx
          exact absurd hx hN
        · rw [upd_ne _ _ _ hx0] at hx
          by_cases hxc : x = t.hashcursor
          · rw [hxc, upd_same] at hx
            exact absurd hx INDEXDEL_ne_INDEXNUL
          · rw [upd_ne _ _ _ hxc] at hx
            exact hx
      by_cases hss0 : s = s0
      · -- the repaired slot now references the relocated row
        subst hss0
        have hvali : ({ t with tosoa := t.tosoa.erase_swap (t.hashmap t.hashcursor), hashmap := upd (upd t.hashmap t.hashcursor INDEXDEL) s (t.hashmap t.hashcursor) } : htable K V).hashmap s = t.hashmap t.hashcursor := by
          rw [hval, upd_same]
        rw [hvali]
        constructor
        · show t.hashmap t.hashcursor <
            (t.tosoa.erase_swap (t.hashmap t.hashcursor)).mysize
          rw [erase_swap_size t.tosoa _ hilt]
          omega
        · have hdata : ({ t with tosoa := t.tosoa.erase_swap (t.hashmap t.hashcursor), hashmap := upd (upd t.hashmap t.hashcursor INDEXDEL) s (t.hashmap t.hashcursor) } : htable K V).mydata (t.hashmap t.hashcursor) =
              (t.tosoa.erase_swap (t.hashmap t.hashcursor)).mydata
                (t.hashmap t.hashcursor) := rfl
          rw [hdata]
          refine ⟨j0, hj0lt, hj0probe, ?_⟩
          intro j' hj'
          have h1 := hj0nonul j' hj'
          show upd (upd t.hashmap t.hashcursor INDEXDEL) s
            (t.hashmap t.hashcursor) _ ≠ INDEXNUL
          intro hcontra
          exact h1 (hnulsub _ hcontra)
      · -- untouched occupied slots
        have hvalold : ({ t with tosoa := t.tosoa.erase_swap (t.hashmap t.hashcursor), hashmap := upd (upd t.hashmap t.hashcursor INDEXDEL) s0 (t.hashmap t.hashcursor) } : htable K V).hashmap s = t.hashmap s := by
          rw [hval, upd_ne _ _ _ hss0, upd_ne _ _ _ hscur]
        rw [hvalold] at hsN hsD ⊢
        obtain ⟨hvlt, j, hjlt, hjprobe, hjnonul⟩ := hreach s hslt' hsN hsD
        have hvne : t.hashmap s ≠ t.mysize - 1 := by
          intro hcontra
          exact hss0 (huniq s hslt' hcontra)
        have hvnei : t.hashmap s ≠ t.hashmap t.hashcursor := by
          intro hcontra
          exact hscur (hcuruniq s hslt' hcontra)
        constructor
        · show t.hashmap s <
            (t.tosoa.erase_swap (t.hashmap t.hashcursor)).mysize
          rw [erase_swap_size t.tosoa _ hilt]
          omega
        · have hdata : ({ t with tosoa := t.tosoa.erase_swap (t.hashmap t.hashcursor), hashmap := upd (upd t.hashmap t.hashcursor INDEXDEL) s0 (t.hashmap t.hashcursor) } : htable K V).mydata (t.hashmap s) = t.mydata (t.hashmap s) := by
            show (t.tosoa.erase_swap (t.hashmap t.hashcursor)).mydata
              (t.hashmap s) = t.mydata (t.hashmap s)
            rw [hT2data]
            rw [upd_ne _ _ _ hvne, upd_ne _ _ _ hvnei]
          rw [hdata]
          refine ⟨j, hjlt, hjprobe, ?_⟩
          intro j' hj'
          have h1 := hjnonul j' hj'
          show upd (upd t.hashmap t.hashcursor INDEXDEL) s0
            (t.hashmap t.hashcursor) _ ≠ INDEXNUL
          intro hcontra
          exact h1 (hnulsub _ hcontra)

/-- **C2** (amended: the slot array must still contain at least one EMPTY
slot).  On a table satisfying the reachability, injectivity and totality slot
invariants: if the most recent `find` failed (cursor out of range or resting
on an EMPTY or TOMBSTONE slot), `erase_found` returns 0 and leaves the table
unchanged; if it succeeded (cursor on an occupied slot), `erase_found`
returns 1, decrements the size, relocates the previously-last row into the
erased row's index, marks the cursor's slot TOMBSTONE, repairs the slot that
referenced the relocated row, and re-establishes the reachability invariant.
Without an EMPTY slot the repair walk of the `i == size-1` case never
terminates. -/
theorem erase_found_erases_and_repairs {K V : Type} [Inhabited K]
    [Inhabited V] [DecidableEq K] (H : K → Nat) (t : htable K V)
    (hodd : Odd t.hashcapacity)
    (hszcap : t.mysize ≤ t.mycapacity)
    (hcapmax : t.mycapacity ≤ HTABLE_MAX_SIZE)
    (hreach : slotReachInv H t) (hinj : slotInj t) (htotal : slotTotal t)
    (hnul : ∃ s, s < t.hashcapacity ∧ t.hashmap s = INDEXNUL) :
    ((t.hashcapacity ≤ t.hashcursor ∨ t.hashmap t.hashcursor = INDEXNUL ∨
        t.hashmap t.hashcursor = INDEXDEL) →
      htable.erase_found H t = some (0, t)) ∧
    (t.hashcursor < t.hashcapacity →
      t.hashmap t.hashcursor ≠ INDEXNUL →
      t.hashmap t.hashcursor ≠ INDEXDEL →
      ∃ t', htable.erase_found H t = some (1, t') ∧
        t'.mysize = t.mysize - 1 ∧
        t'.mycapacity = t.mycapacity ∧
        t'.hashcapacity = t.hashcapacity ∧
        t'.hashcursor = t.hashcursor ∧
        t'.hashmap t.hashcursor = INDEXDEL ∧
        (∀ r, r < t.mysize - 1 →
          t'.mydata r = if r = t.hashmap t.hashcursor
                        then t.mydata (t.mysize - 1) else t.mydata r) ∧
        (∀ s, s < t.hashcapacity → s ≠ t.hashcursor →
          t'.hashmap s = if t.hashmap s = t.mysize - 1
                         then t.hashmap t.hashcursor else t.hashmap s) ∧
        slotReachInv H t') := by
  constructor
  · intro h
    exact erase_found_notfound H t h
  · intro hcur hN hD
    exact erase_found_found_spec H t hodd hszcap hcapmax hreach hinj htotal
      hnul hcur hN hD

/-- Counterexample to C2 as stated: a table satisfying every invariant the
claim assumes, with the cursor on an occupied slot, whose slot array has no
EMPTY slot (every unoccupied slot is a TOMBSTONE).  The found row's index is
`size-1`, so the repair walk looks for a slot holding the about-to-vanish
index and finds only TOMBSTONEs forever: no amount of fuel makes the walk
produce a result, mirroring the C++ loop that never terminates. -/
theorem erase_found_no_empty_slot_diverges :
    slotReachInv (fun k : Nat => k) eraseDemoSat ∧ slotInj eraseDemoSat ∧
    slotTotal eraseDemoSat ∧
    eraseDemoSat.hashcursor < eraseDemoSat.hashcapacity ∧
    eraseDemoSat.hashmap eraseDemoSat.hashcursor ≠ INDEXNUL ∧
    eraseDemoSat.hashmap eraseDemoSat.hashcursor ≠ INDEXDEL ∧
    (∀ s, s < eraseDemoSat.hashcapacity →
      eraseDemoSat.hashmap s ≠ INDEXNUL) ∧
    ∀ fuel, htable.erase_foundAux (fun k : Nat => k) eraseDemoSat fuel =
      none := by
  refine ⟨by decide, by decide, by decide, by decide, by decide, by decide,
    by decide, ?_⟩
  have hall : ∀ c, upd eraseDemoSat.hashmap eraseDemoSat.hashcursor INDEXDEL
      c = INDEXDEL := by
    intro c
    show (if c = eraseDemoSat.hashcursor then INDEXDEL
          else eraseDemoSat.hashmap c) = INDEXDEL
    by_cases h : c = eraseDemoSat.hashcursor
    · rw [if_pos h]
    · rw [if_neg h]
      show (if c = 5 then (0 : Nat) else INDEXDEL) = INDEXDEL
      rw [if_neg (show ¬ c = 5 from h)]
  have hnone : ∀ c, htable.repairBody
      ({ eraseDemoSat with tosoa := eraseDemoSat.tosoa.erase_swap (eraseDemoSat.hashmap eraseDemoSat.hashcursor), hashmap := upd eraseDemoSat.hashmap eraseDemoSat.hashcursor INDEXDEL } : htable Nat Nat)
      (eraseDemoSat.hashmap eraseDemoSat.hashcursor) c = none := by
    intro c
    unfold htable.repairBody
    dsimp only
    rw [erase_swap_size eraseDemoSat.tosoa _ (by decide)]
    rw [hall c]
    rw [if_neg (by decide : ¬ INDEXDEL = eraseDemoSat.tosoa.mysize - 1)]
    rw [if_neg INDEXDEL_ne_INDEXNUL]
  intro fuel
  simp only [htable.erase_foundAux]
  rw [if_neg (by decide :
    ¬ eraseDemoSat.hashcursor ≥ eraseDemoSat.hashcapacity)]
  rw [if_neg (by decide :
    ¬ (eraseDemoSat.hashmap eraseDemoSat.hashcursor = INDEXNUL ∨
       eraseDemoSat.hashmap eraseDemoSat.hashcursor = INDEXDEL))]
  rw [probeLoop_none _ _ hnone fuel _]
  rfl

theorem erase_found_erases_and_repairs_witness :
    (htable.erase_found (fun k : Nat => k)
        ({ eraseDemoT with hashcursor := 0 } : htable Nat Nat) =
      some (0, ({ eraseDemoT with hashcursor := 0 } : htable Nat Nat))) ∧
    (∃ t', htable.erase_found (fun k : Nat => k) eraseDemoT =
        some (1, t') ∧
      t'.mysize = eraseDemoT.mysize - 1 ∧
      t'.mycapacity = eraseDemoT.mycapacity ∧
      t'.hashcapacity = eraseDemoT.hashcapacity ∧
      t'.hashcursor = eraseDemoT.hashcursor ∧
      t'.hashmap eraseDemoT.hashcursor = INDEXDEL ∧
      (∀ r, r < eraseDemoT.mysize - 1 →
        t'.mydata r = if r = eraseDemoT.hashmap eraseDemoT.hashcursor
                      then eraseDemoT.mydata (eraseDemoT.mysize - 1)
                      else eraseDemoT.mydata r) ∧
      (∀ s, s < eraseDemoT.hashcapacity → s ≠ eraseDemoT.hashcursor →
        t'.hashmap s = if eraseDemoT.hashmap s = eraseDemoT.mysize - 1
                       then eraseDemoT.hashmap eraseDemoT.hashcursor
                       else eraseDemoT.hashmap s) ∧
      slotReachInv (fun k : Nat => k) t') :=
  ⟨(erase_found_erases_and_repairs (fun k : Nat => k)
      ({ eraseDemoT with hashcursor := 0 } : htable Nat Nat)
      (by decide) (by decide) (by decide) (by decide) (by decide) (by decide)
      ⟨0, by decide, by decide⟩).1 (Or.inr (Or.inl (by decide))),
   (erase_found_erases_and_repairs (fun k : Nat => k) eraseDemoT
      (by decide) (by decide) (by decide) (by decide) (by decide) (by decide)
      ⟨0, by decide, by decide⟩).2 (by decide) (by decide) (by decide)⟩

theorem probe_add (h0 a i m : Nat) :
    probe (probe h0 a m) i m = probe h0 (a + i) m := by
  unfold probe
  rw [Nat.mod_add_mod]
  have h : h0 + 2 * a + 2 * i = h0 + 2 * (a + i) := by ring
  rw [h]

/-- The walk of `find` from probe position `a`: if every position in
`[a, b)` is skippable (a TOMBSTONE or an occupied slot with a different key)
and position `b` terminates the walk (EMPTY, or occupied with the search
key), the walk stops exactly at `b`, yielding `SIZE_MAX` on EMPTY and the
stored row index otherwise. -/
theorem findLoop_segment {K V : Type} [Inhabited K] [Inhabited V]
    [DecidableEq K] (hm : Nat → Nat) (rows : Nat → K × V) (k : K)
    (m h0 a b : Nat) (hm0 : 0 < m) (hab : a ≤ b) (hbm : b < m)
    (hskip : ∀ j, a ≤ j → j < b → hm (probe h0 j m) ≠ INDEXNUL ∧
      (hm (probe h0 j m) = INDEXDEL ∨ (rows (hm (probe h0 j m))).1 ≠ k))
    (hfire : hm (probe h0 b m) = INDEXNUL ∨
      (hm (probe h0 b m) ≠ INDEXDEL ∧ (rows (hm (probe h0 b m))).1 = k)) :
    htable.findLoop hm rows k m (probe h0 a m) m =
      some (if hm (probe h0 b m) = INDEXNUL then SIZE_MAX
            else hm (probe h0 b m), probe h0 b m) := by
  unfold htable.findLoop
  refine probeLoop_spec _ m (b - a) _ _ _ (probe_lt h0 a hm0) ?_ ?_
    (by omega)
  · intro i hi
    have hj := hskip (a + i) (by omega) (by omega)
    rw [probe_add h0 a i m]
    show (if hm (probe h0 (a + i) m) = INDEXNUL
          then some (SIZE_MAX, probe h0 (a + i) m)
          else if hm (probe h0 (a + i) m) ≠ INDEXDEL ∧
              (rows (hm (probe h0 (a + i) m))).1 = k
          then some (hm (probe h0 (a + i) m), probe h0 (a + i) m)
          else none) = none
    rw [if_neg hj.1]
    rw [if_neg (by
      intro hcontra
      rcases hj.2 with h | h
      · exact hcontra.1 h
      · exact h hcontra.2)]
  · rw [probe_add h0 a (b - a) m]
    rw [Nat.add_sub_cancel' hab]
    by_cases hN : hm (probe h0 b m) = INDEXNUL
    · show (if hm (probe h0 b m) = INDEXNUL
            then some (SIZE_MAX, probe h0 b m)
            else if hm (probe h0 b m) ≠ INDEXDEL ∧
                (rows (hm (probe h0 b m))).1 = k
            then some (hm (probe h0 b m), probe h0 b m)
            else none) =
          some (if hm (probe h0 b m) = INDEXNUL then SIZE_MAX
                else hm (probe h0 b m), probe h0 b m)
      rw [if_pos hN, if_pos hN]
    · show (if hm (probe h0 b m) = INDEXNUL
            then some (SIZE_MAX, probe h0 b m)
            else if hm (probe h0 b m) ≠ INDEXDEL ∧
                (rows (hm (probe h0 b m))).1 = k
            then some (hm (probe h0 b m), probe h0 b m)
            else none) =
          some (if hm (probe h0 b m) = INDEXNUL then SIZE_MAX
                else hm (probe h0 b m), probe h0 b m)
      rw [if_neg hN, if_neg hN]
      rcases hfire with h | h
      · exact absurd h hN
      · rw [if_pos h]

/-- A `find(key, restart=false)` call with the cursor resting on probe
position `b`: the walk resumes one stride later and stops at position `c`. -/
theorem find_false_spec {K V : Type} [Inhabited K] [Inhabited V]
    [DecidableEq K] (H : K → Nat) (t : htable K V) (k : K) (h0 b c : Nat)
    (hsz : ¬ t.mysize = 0) (hm0 : 0 < t.hashcapacity)
    (hcur : t.hashcursor = probe h0 b t.hashcapacity)
    (hbc : b < c) (hcm : c < t.hashcapacity)
    (hskip : ∀ j, b < j → j < c →
      t.hashmap (probe h0 j t.hashcapacity) ≠ INDEXNUL ∧
      (t.hashmap (probe h0 j t.hashcapacity) = INDEXDEL ∨
       (t.mydata (t.hashmap (probe h0 j t.hashcapacity))).1 ≠ k))
    (hfire : t.hashmap (probe h0 c t.hashcapacity) = INDEXNUL ∨
      (t.hashmap (probe h0 c t.hashcapacity) ≠ INDEXDEL ∧
       (t.mydata (t.hashmap (probe h0 c t.hashcapacity))).1 = k)) :
    htable.find H t k false = some
      (if t.hashmap (probe h0 c t.hashcapacity) = INDEXNUL then SIZE_MAX
       else t.hashmap (probe h0 c t.hashcapacity),
       { t with hashcursor := probe h0 c t.hashcapacity }) := by
  unfold htable.find
  rw [if_neg hsz]
  rw [if_neg Bool.false_ne_true]
  rw [if_neg (show ¬ t.hashcursor ≥ t.hashcapacity by
    rw [hcur]
    have h := probe_lt h0 b hm0
    omega)]
  rw [hcur]
  rw [← probe_succ h0 b t.hashcapacity]
  rw [findLoop_segment t.hashmap t.mydata k t.hashcapacity h0 (b + 1) c hm0
    (by omega) hcm (fun j h1 h2 => hskip j (by omega) h2) hfire]
  rfl

/-- A `find(key, restart=true)` call: the walk starts at the key's hash and
stops at position `c`. -/
theorem find_true_spec {K V : Type} [Inhabited K] [Inhabited V]
    [DecidableEq K] (H : K → Nat) (t : htable K V) (k : K) (c : Nat)
    (hsz : ¬ t.mysize = 0) (hm0 : 0 < t.hashcapacity)
    (hcm : c < t.hashcapacity)
    (hskip : ∀ j, j < c →
      t.hashmap (probe (H k % t.hashcapacity) j t.hashcapacity) ≠
        INDEXNUL ∧
      (t.hashmap (probe (H k % t.hashcapacity) j t.hashcapacity) =
        INDEXDEL ∨
       (t.mydata (t.hashmap
         (probe (H k % t.hashcapacity) j t.hashcapacity))).1 ≠ k))
    (hfire : t.hashmap (probe (H k % t.hashcapacity) c t.hashcapacity) =
        INDEXNUL ∨
      (t.hashmap (probe (H k % t.hashcapacity) c t.hashcapacity) ≠
        INDEXDEL ∧
       (t.mydata (t.hashmap
         (probe (H k % t.hashcapacity) c t.hashcapacity))).1 = k)) :
    htable.find H t k true = some
      (if t.hashmap (probe (H k % t.hashcapacity) c t.hashcapacity) =
          INDEXNUL then SIZE_MAX
       else t.hashmap (probe (H k % t.hashcapacity) c t.hashcapacity),
       { t with hashcursor := probe (H k % t.hashcapacity) c t.hashcapacity }) := by
  unfold htable.find
  rw [if_neg hsz]
  rw [if_pos rfl]
  have h1 : H k % t.hashcapacity =
      probe (H k % t.hashcapacity) 0 t.hashcapacity := by
    rw [probe_zero, Nat.mod_mod_of_dvd _ (dvd_refl _)]
  conv_lhs => rw [h1]
  rw [findLoop_segment t.hashmap t.mydata k t.hashcapacity
    (H k % t.hashcapacity) 0 c hm0 (by omega) hcm
    (fun j h1 h2 => hskip j h2) hfire]
  rfl

/-- Chaining `find(key, restart=false)` calls: with the cursor resting on
probe position `b`, if the strictly-increasing positions `js` (all in
`(b, jE)`) hold the remaining rows with the search key, every other position
before the EMPTY position `jE` is skippable, then `js.length + 1` further
calls return those rows' indices in probe order followed by `SIZE_MAX`,
leaving the cursor on the EMPTY slot. -/
theorem findSeqAux_chain {K V : Type} [Inhabited K] [Inhabited V]
    [DecidableEq K] (H : K → Nat) (t : htable K V) (k : K) (h0 jE : Nat)
    (hsz : ¬ t.mysize = 0) (hm0 : 0 < t.hashcapacity)
    (hjE : jE < t.hashcapacity)
    (hE : t.hashmap (probe h0 jE t.hashcapacity) = INDEXNUL) :
    ∀ (js : List Nat) (b : Nat) (t' : htable K V),
      t'.tosoa = t.tosoa → t'.hashmap = t.hashmap →
      t'.hashcapacity = t.hashcapacity →
      t'.hashcursor = probe h0 b t.hashcapacity →
      b < jE →
      List.Pairwise (fun x y => x < y) js →
      (∀ j ∈ js, b < j ∧ j < jE ∧
        t.hashmap (probe h0 j t.hashcapacity) ≠ INDEXNUL ∧
        t.hashmap (probe h0 j t.hashcapacity) ≠ INDEXDEL ∧
        (t.mydata (t.hashmap (probe h0 j t.hashcapacity))).1 = k) →
      (∀ j, b < j → j < jE → j ∉ js →
        t.hashmap (probe h0 j t.hashcapacity) ≠ INDEXNUL ∧
        (t.hashmap (probe h0 j t.hashcapacity) = INDEXDEL ∨
         (t.mydata (t.hashmap (probe h0 j t.hashcapacity))).1 ≠ k)) →
      ∃ t2 : htable K V,
        findSeqAux H k (js.length + 1) t' =
          some (js.map (fun j => t.hashmap (probe h0 j t.hashcapacity)) ++
            [SIZE_MAX], t2) ∧
        t2.tosoa = t.tosoa ∧ t2.hashmap = t.hashmap ∧
        t2.hashcapacity = t.hashcapacity ∧
        t2.hashcursor = probe h0 jE t.hashcapacity := by
  have hunfold : ∀ (n : Nat) (tt : htable K V), findSeqAux H k (n + 1) tt =
      (htable.find H tt k false).bind fun rc =>
        (findSeqAux H k n rc.2).map fun p => (rc.1 :: p.1, p.2) :=
    fun n tt => rfl
  intro js
  induction js with
  | nil =>
    intro b t' hts hhm hhc hcur hb hpair hmem hother
    have hmd : t'.mydata = t.mydata := congrArg soa.mydata hts
    have hms : t'.mysize = t.mysize := congrArg soa.mysize hts
    have hsz' : ¬ t'.mysize = 0 := by
      rw [hms]
      exact hsz
    have hm0' : 0 < t'.hashcapacity := by
      rw [hhc]
      exact hm0
    have hcur' : t'.hashcursor = probe h0 b t'.hashcapacity := by
      rw [hhc]
      exact hcur
    have hcm' : jE < t'.hashcapacity := by
      rw [hhc]
      exact hjE
    have hE' : t'.hashmap (probe h0 jE t'.hashcapacity) = INDEXNUL := by
      rw [hhm, hhc]
      exact hE
    refine ⟨{ t' with hashcursor := probe h0 jE t.hashcapacity }, ?_,
      hts, hhm, hhc, rfl⟩
    rw [List.length_nil, hunfold 0 t']
    rw [find_false_spec H t' k h0 b jE hsz' hm0' hcur' hb hcm'
      (fun j h1 h2 => by
        rw [hhm, hmd, hhc]
        exact hother j h1 h2 (List.not_mem_nil j))
      (Or.inl hE')]
    rw [if_pos hE']
    simp only [Option.some_bind, findSeqAux, Option.map_some']
    rw [hhc]
    simp only [List.map_nil, List.nil_append]
  | cons j1 rest ih =>
    intro b t' hts hhm hhc hcur hb hpair hmem hother
    obtain ⟨hbj1, hj1E, hN1, hD1, hk1⟩ := hmem j1 (List.mem_cons_self j1 rest)
    have hmd : t'.mydata = t.mydata := congrArg soa.mydata hts
    have hms : t'.mysize = t.mysize := congrArg soa.mysize hts
    have hsz' : ¬ t'.mysize = 0 := by
      rw [hms]
      exact hsz
    have hm0' : 0 < t'.hashcapacity := by
      rw [hhc]
      exact hm0
    have hcur' : t'.hashcursor = probe h0 b t'.hashcapacity := by
      rw [hhc]
      exact hcur
    have hj1m' : j1 < t'.hashcapacity := by
      rw [hhc]
      omega
    have hN1' : ¬ t'.hashmap (probe h0 j1 t'.hashcapacity) = INDEXNUL := by
      rw [hhm, hhc]
      exact hN1
    have hval : t'.hashmap (probe h0 j1 t'.hashcapacity) =
        t.hashmap (probe h0 j1 t.hashcapacity) := by
      rw [hhm, hhc]
    have hj1lt : ∀ x ∈ rest, j1 < x := (List.pairwise_cons.mp hpair).1
    have hpair' : List.Pairwise (fun x y => x < y) rest :=
      (List.pairwise_cons.mp hpair).2
    obtain ⟨t2, heq2, hts2, hhm2, hhc2, hcur2⟩ := ih j1
      ({ t' with hashcursor := probe h0 j1 t'.hashcapacity })
      hts hhm hhc
      (show probe h0 j1 t'.hashcapacity = probe h0 j1 t.hashcapacity by
        rw [hhc])
      hj1E hpair'
      (fun j hj => ⟨hj1lt j hj, (hmem j (List.mem_cons_of_mem j1 hj)).2⟩)
      (fun j h1 h2 hnotin => hother j (by omega) h2 (by
        intro hmem2
        rcases List.mem_cons.mp hmem2 with h | h
        · omega
        · exact hnotin h))
    refine ⟨t2, ?_, hts2, hhm2, hhc2, hcur2⟩
    rw [List.length_cons, hunfold (rest.length + 1) t']
    rw [find_false_spec H t' k h0 b j1 hsz' hm0' hcur' hbj1 hj1m'
      (fun j h1 h2 => by
        rw [hhm, hmd, hhc]
        exact hother j h1 (by omega) (by
          intro hmem2
          rcases List.mem_cons.mp hmem2 with h | h
          · omega
          · have := hj1lt j h
            omega))
      (Or.inr ⟨(by
        rw [hhm, hhc]
        exact hD1), (by
        rw [hhm, hmd, hhc]
        exact hk1)⟩)]
    rw [if_neg hN1']
    simp only [Option.some_bind]
    rw [heq2]
    simp only [Option.map_some']
    rw [hval]
    simp only [List.map_cons, List.cons_append]

/-- **C1**: on any table whose probe sequence for `key` consists — up to the
first EMPTY slot, at probe position `jE` — of the key's rows at the
strictly-increasing probe positions `js` and otherwise only of skippable
positions (TOMBSTONEs or rows with a different key), a `find(key,
restart=true)` call followed by `js.length` `find(key, restart=false)` calls
returns exactly those rows' indices in probe order followed by `SIZE_MAX`
(not-found), leaving the rows and slots untouched and the cursor on the
EMPTY slot.  Tables built by inserting rows with `key` (interleaved with
other keys, no intervening erase, sort or reallocation) have this shape;
the spec's banana example is checked end-to-end in the witness. -/
theorem find_enumerates_equal_keys {K V : Type} [Inhabited K] [Inhabited V]
    [DecidableEq K] (H : K → Nat) (t : htable K V) (k : K)
    (js : List Nat) (jE : Nat)
    (hsz : ¬ t.mysize = 0) (hm0 : 0 < t.hashcapacity)
    (hjE : jE < t.hashcapacity)
    (hE : t.hashmap (probe (H k % t.hashcapacity) jE t.hashcapacity) =
      INDEXNUL)
    (hpair : List.Pairwise (fun x y => x < y) js)
    (hmem : ∀ j ∈ js, j < jE ∧
      t.hashmap (probe (H k % t.hashcapacity) j t.hashcapacity) ≠
        INDEXNUL ∧
      t.hashmap (probe (H k % t.hashcapacity) j t.hashcapacity) ≠
        INDEXDEL ∧
      (t.mydata (t.hashmap
        (probe (H k % t.hashcapacity) j t.hashcapacity))).1 = k)
    (hother : ∀ j, j < jE → j ∉ js →
      t.hashmap (probe (H k % t.hashcapacity) j t.hashcapacity) ≠
        INDEXNUL ∧
      (t.hashmap (probe (H k % t.hashcapacity) j t.hashcapacity) =
        INDEXDEL ∨
       (t.mydata (t.hashmap
         (probe (H k % t.hashcapacity) j t.hashcapacity))).1 ≠ k)) :
    ∃ t2 : htable K V,
      findSeq H t k js.length =
        some (js.map (fun j => t.hashmap
          (probe (H k % t.hashcapacity) j t.hashcapacity)) ++ [SIZE_MAX],
          t2) ∧
      t2.tosoa = t.tosoa ∧ t2.hashmap = t.hashmap ∧
      t2.hashcapacity = t.hashcapacity ∧
      t2.hashcursor = probe (H k % t.hashcapacity) jE t.hashcapacity := by
  cases js with
  | nil =>
    refine ⟨{ t with hashcursor := probe (H k % t.hashcapacity) jE t.hashcapacity }, ?_, rfl, rfl, rfl, rfl⟩
    unfold findSeq
    rw [find_true_spec H t k jE hsz hm0 hjE
      (fun j h2 => hother j h2 (List.not_mem_nil j))
      (Or.inl hE)]
    rw [if_pos hE]
    simp only [List.length_nil, Option.some_bind, findSeqAux,
      Option.map_some']
    simp only [List.map_nil, List.nil_append]
  | cons j1 rest =>
    obtain ⟨hj1E, hN1, hD1, hk1⟩ := hmem j1 (List.mem_cons_self j1 rest)
    have hj1lt : ∀ x ∈ rest, j1 < x := (List.pairwise_cons.mp hpair).1
    have hpair' : List.Pairwise (fun x y => x < y) rest :=
      (List.pairwise_cons.mp hpair).2
    obtain ⟨t2, heq2, hts2, hhm2, hhc2, hcur2⟩ := findSeqAux_chain H t k
      (H k % t.hashcapacity) jE hsz hm0 hjE hE rest j1
      ({ t with hashcursor := probe (H k % t.hashcapacity) j1 t.hashcapacity })
      rfl rfl rfl rfl hj1E hpair'
      (fun j hj => ⟨hj1lt j hj, hmem j (List.mem_cons_of_mem j1 hj)⟩)
      (fun j h1 h2 hnotin => hother j h2 (by
        intro hmem2
        rcases List.mem_cons.mp hmem2 with h | h
        · omega
        · exact hnotin h))
    refine ⟨t2, ?_, hts2, hhm2, hhc2, hcur2⟩
    unfold findSeq
    rw [find_true_spec H t k j1 hsz hm0 (by omega)
      (fun j h2 => hother j (by omega) (by
        intro hmem2
        rcases List.mem_cons.mp hmem2 with h | h
        · omega
        · have := hj1lt j h
          omega))
      (Or.inr ⟨hD1, hk1⟩)]
    rw [if_neg hN1]
    simp only [Option.some_bind]
    rw [List.length_cons]
    rw [heq2]
    simp only [Option.map_some']
    simp only [List.map_cons, List.cons_append]

theorem find_enumerates_equal_keys_witness :
    runH (fun s => s.length) bananaOps = some bananaT ∧
    (bananaT.mydata 0).2 = 12 ∧ (bananaT.mydata 1).2 = 42 ∧
    (bananaT.mydata 2).2 = 9001 ∧
    ∃ t2 : htable String Nat,
      findSeq (fun s => s.length) bananaT "banana" 3 =
        some ([0, 1, 2, SIZE_MAX], t2) ∧
      t2.tosoa = bananaT.tosoa ∧ t2.hashmap = bananaT.hashmap ∧
      t2.hashcapacity = bananaT.hashcapacity ∧
      t2.hashcursor = 12 :=
  ⟨rfl, rfl, rfl, rfl,
   find_enumerates_equal_keys (fun s => s.length) bananaT "banana"
     [0, 1, 2] 3 (by decide) (by decide) (by decide) (by decide)
     (by decide) (by decide) (by decide)⟩

end hvh
